import Mathlib

/-!
Verification of the sysrepo request-handling engine against its
natural-language specification.

The development shallowly embeds the relevant parts of the C sources
(src/connection_manager.c, src/persistence_manager.c,
src/notification_processor.c, src/rp_dt_xpath.c, src/utils/sr_btree.c,
src/data_manager.h).  Pure functions become Lean functions, stateful code
becomes explicit state passing, machine integers become Nat with explicit
modular arithmetic where C unsigned wraparound matters, and fallible code
returns Option or carries an explicit result code.  Every definition is
translated from the source file named in its doc comment; the few
functions whose implementation file is not part of the source tree
(notably dm_commit and the dm node-state helpers of data_manager.c, and
the sr_common helpers) are modelled from the specification and are marked
as such in their doc comments.
-/

/-- Result codes of the engine (sr_error_t of the sources, §7 of the spec).
Only the codes used by the embedded functions are listed. -/
inductive SrErr where
  | ok
  | invalArg
  | nomem
  | notFound
  | internal
  | unauthorized
  | unsupported
  | unknownModel
  | badElement
  | validationFailed
  | commitFailed
  | dataMissing
  | dataExists
  | malformedMsg
  | ioErr
  | initFailed
  deriving DecidableEq, Repr

/-! ## Connection Manager: per-session request sequencer

Embedding of the session-related counters and queues of
src/connection_manager.c (cm_session_ctx_s, cm_req_process, cm_resp_process,
cm_msg_send).  The pending-request queue (sr_cbuff of sr_common.c, which is
not part of the source tree) is modelled from the spec as a FIFO list. -/

/-- Message types of the wire protocol (Sr__Msg__MsgType). -/
inductive MsgType where
  | request
  | response
  | notification
  deriving DecidableEq, Repr

/-- Connection kinds (cm_connection_type_t): client connections issue
requests, server-role connections deliver notification acknowledgments. -/
inductive ConnType where
  | afUnixClient
  | afUnixServer
  deriving DecidableEq, Repr

/-- Per-session data kept by the Connection Manager
(cm_session_ctx_s in src/connection_manager.c).  Requests are identified
abstractly by their arrival number.  The request_queue field models the
sr_cbuff FIFO (modelled from the spec: sr_cbuff of sr_common.c is not in
the source tree; the spec calls it the session pending-request FIFO). -/
structure CmSessionCtx where
  rp_req_cnt : Nat
  request_queue : List Nat
  rp_resp_expected : Nat
  deriving DecidableEq, Repr

/-- Default branch of cm_req_process (src/connection_manager.c:581-597):
a client request whose operation is neither session-start nor session-stop.
If rp_req_cnt > 0 the message is enqueued, otherwise rp_req_cnt is raised
to 1 and the message is handed to rp_msg_process; when that hand-off fails
the counter is rolled back (the message was consumed by RP either way).
The flag ok models success of the fallible sub-call taken on the branch
(sr_cbuff_enqueue resp. rp_msg_process).  Returns the new session context
and the request forwarded to RP, if any. -/
def cm_req_process_default (c : CmSessionCtx) (r : Nat) (ok : Bool) :
    CmSessionCtx × Option Nat :=
  if c.rp_req_cnt > 0 then
    (if ok then { c with request_queue := c.request_queue ++ [r] } else c, none)
  else
    if ok then ({ c with rp_req_cnt := c.rp_req_cnt + 1 }, some r)
    else (c, none)

/-- Counter updates performed by cm_msg_send
(src/connection_manager.c:1166-1173) before the outbound message is
serialized: a response to the client decrements rp_req_cnt (guarded
against underflow), a server-to-client request increments
rp_resp_expected. -/
def cm_msg_send_counters (t : MsgType) (c : CmSessionCtx) : CmSessionCtx :=
  match t with
  | .response =>
      if c.rp_req_cnt > 0 then { c with rp_req_cnt := c.rp_req_cnt - 1 } else c
  | .request => { c with rp_resp_expected := c.rp_resp_expected + 1 }
  | .notification => c

/-- Session-state effect of cm_msg_send (src/connection_manager.c:1138-1197):
after the counter update and the send, if rp_req_cnt dropped to 0 and the
pending-request FIFO is non-empty, exactly the head is dequeued and handed
to rp_msg_process, raising the counter to 1 again; a failed hand-off rolls
the counter back (the dequeued message is consumed by RP either way).
Returns the new session context and the request forwarded to RP, if any. -/
def cm_msg_send (t : MsgType) (c : CmSessionCtx) (rpOk : Bool) :
    CmSessionCtx × Option Nat :=
  let c1 := cm_msg_send_counters t c
  if c1.rp_req_cnt = 0 then
    match c1.request_queue with
    | [] => (c1, none)
    | q :: rest =>
        if rpOk then ({ c1 with request_queue := rest, rp_req_cnt := 1 }, some q)
        else ({ c1 with request_queue := rest }, none)
  else (c1, none)

/-- Branch of cm_resp_process (src/connection_manager.c:610-646) handling an
incoming client response: after message validation and the connection-type
check, the response is forwarded to the Request Processor only when
rp_resp_expected > 0; otherwise the unexpected response is an
SR_ERR_INVAL_ARG error.  Returns the result code and whether the message
was forwarded to RP. -/
def cm_resp_process (connType : ConnType) (validOk : Bool) (c : CmSessionCtx) :
    SrErr × Bool :=
  if validOk = false then (.invalArg, false)
  else if connType ≠ .afUnixServer then (.invalArg, false)
  else if c.rp_resp_expected > 0 then (.ok, true)
  else (.invalArg, false)

/-- Events observable on one session of the Connection Manager.
reqArrive is a client request (operation neither session-start nor
session-stop) entering cm_req_process; rpComplete is the Request Processor
completing the in-flight request, upon which cm_msg_send emits its response
to the client; srvReqSend is a server-to-client request (notification
delivery) leaving through cm_msg_send.  The Bool on each event is the
success of the fallible rp_msg_process / sr_cbuff_enqueue sub-call taken
during the event (in the C code a failure additionally closes the
connection, ending the run). -/
inductive SeqEvent where
  | reqArrive (ok : Bool)
  | rpComplete (ok : Bool)
  | srvReqSend (ok : Bool)
  deriving DecidableEq, Repr

/-- Global view of one session used to state the sequencer claims: the CM
session context, the request currently being processed by RP, and the
histories of arrived, successfully forwarded and responded requests. -/
structure SeqState where
  sess : CmSessionCtx
  inflight : Option Nat
  arrived : List Nat
  forwarded : List Nat
  responded : List Nat
  deriving DecidableEq, Repr

/-- Initial state of a freshly started session: both counters zero, queue
and histories empty (cm_session_start_req_process zero-initializes
cm_data). -/
def seqInit : SeqState :=
  { sess := { rp_req_cnt := 0, request_queue := [], rp_resp_expected := 0 },
    inflight := none, arrived := [], forwarded := [], responded := [] }

/-- One step of the per-session sequencer, combining
cm_req_process_default and cm_msg_send exactly as the reactor invokes
them.  An rpComplete without an in-flight request cannot occur (RP has
nothing to complete) and is modelled as a no-op. -/
def seqStep (s : SeqState) (e : SeqEvent) : SeqState :=
  match e with
  | .reqArrive ok =>
      let r := s.arrived.length
      let p := cm_req_process_default s.sess r ok
      { s with
        sess := p.1,
        inflight := match p.2 with | some q => some q | none => s.inflight,
        arrived := s.arrived ++ [r],
        forwarded := s.forwarded ++ p.2.toList }
  | .rpComplete ok =>
      match s.inflight with
      | none => s
      | some r =>
          let p := cm_msg_send .response s.sess ok
          { s with
            sess := p.1,
            inflight := p.2,
            forwarded := s.forwarded ++ p.2.toList,
            responded := s.responded ++ [r] }
  | .srvReqSend ok =>
      let p := cm_msg_send .request s.sess ok
      { s with
        sess := p.1,
        inflight := match p.2 with | some q => some q | none => s.inflight,
        forwarded := s.forwarded ++ p.2.toList }

/-- Run of the sequencer over a list of events from the initial session
state. -/
def seqRun (es : List SeqEvent) : SeqState :=
  es.foldl seqStep seqInit

/-- Success flag carried by a sequencer event. -/
def SeqEvent.okFlag : SeqEvent → Bool
  | .reqArrive ok => ok
  | .rpComplete ok => ok
  | .srvReqSend ok => ok

/-- A run in which every rp_msg_process / enqueue hand-off succeeds (in the
C code a failed hand-off closes the connection, so live sessions only ever
observe such runs). -/
def seqAllOk (es : List SeqEvent) : Prop :=
  ∀ e ∈ es, e.okFlag = true

instance : DecidablePred seqAllOk := by
  intro es
  unfold seqAllOk
  infer_instance

/-- Core counter invariant of the sequencer: rp_req_cnt is 1 exactly when
a request is in flight in the Request Processor and 0 otherwise. -/
def SeqInv (s : SeqState) : Prop :=
  s.sess.rp_req_cnt = (if s.inflight.isSome then 1 else 0)

/-- Bookkeeping invariant maintained on runs where every hand-off
succeeds: responded, in-flight and queued requests partition the arrived
requests in arrival order, and the queue is non-empty only while some
request is in flight. -/
def SeqInvOk (s : SeqState) : Prop :=
  SeqInv s ∧
  s.responded ++ (s.inflight.toList ++ s.sess.request_queue) = s.arrived ∧
  (s.inflight = none → s.sess.request_queue = [])

/-! ## Connection Manager: session-stop request processing

Embedding of cm_session_stop_req_process (src/connection_manager.c:482-542). -/

/-- Response assembled for a session-stop request: result code, optional
error message and the session id echoed in the session_stop response
body. -/
structure SessionStopResp where
  result : SrErr
  error_msg : Option String
  resp_session_id : Option Nat
  deriving DecidableEq, Repr

/-- Observable outcome of cm_session_stop_req_process: the response sent
to the client, whether rp_session_stop was invoked, and whether the
session was dropped in the Session Manager. -/
structure SessionStopOutcome where
  resp : SessionStopResp
  rp_stop_called : Bool
  session_dropped : Bool
  deriving DecidableEq, Repr

/-- cm_session_stop_req_process (src/connection_manager.c:482-542).
sessId is the id of the session the request arrived on, reqId the
session_id field of the session_stop request body.  When the two differ,
the error message is attached, the result becomes SR_ERR_UNSUPPORTED, and
rp_session_stop is skipped.  rpStop models the result of rp_session_stop
(request_processor.c is outside the embedded sources) and sendOk the
success of cm_msg_send_session; the session is dropped in SM only when
drop_session was set and the response was sent successfully. -/
def cm_session_stop_req_process (sessId reqId : Nat) (rpStop : SrErr)
    (sendOk : Bool) : SessionStopOutcome :=
  if sessId ≠ reqId then
    { resp := { result := .unsupported,
                error_msg := some "Stopping of other sessions is not allowed",
                resp_session_id := none },
      rp_stop_called := false,
      session_dropped := false }
  else if rpStop = .ok then
    { resp := { result := .ok, error_msg := none,
                resp_session_id := some sessId },
      rp_stop_called := true,
      session_dropped := sendOk }
  else
    { resp := { result := rpStop, error_msg := none, resp_session_id := none },
      rp_stop_called := true,
      session_dropped := false }

/-! ## Connection Manager: framed-message extraction

Embedding of cm_conn_in_buff_process (src/connection_manager.c:715-767)
and the close decision of cm_conn_read_cb (src/connection_manager.c:823-837).
The input buffer is modelled as the list of its valid bytes
(in_buff.data[0 .. in_buff.pos)); buff_size and buff_pos are C size_t
values, so their subtraction wraps modulo 2^64 and is modelled
explicitly.  SR_MAX_MSG_SIZE of sr_common.h is implementation-defined
(the header is not in the source tree), hence a parameter maxMsgSize. -/

/-- Size of the message length preamble in bytes (SR_MSG_PREAM_SIZE of
sr_common.h; the spec fixes the wire format to a 4-byte big-endian
length). -/
def SR_MSG_PREAM_SIZE : Nat := 4

/-- Modulus of the C size_t type used for the buffer arithmetic. -/
def SIZE_T_MOD : Nat := 2 ^ 64

/-- C size_t subtraction: unsigned subtraction wrapping modulo 2^64
(the expression buff_size - buff_pos of cm_conn_in_buff_process is of
this kind). -/
def size_t_sub (a b : Nat) : Nat :=
  (((a : Int) - (b : Int)) % (SIZE_T_MOD : Int)).toNat

/-- sr_buff_to_uint32 reading 4 big-endian bytes at the given position.
Modelled from the spec: sr_common.c is not in the source tree; the spec
fixes the preamble to a 4-byte big-endian length.  Bytes beyond the valid
buffer content read as 0 (in C such reads yield unspecified allocated
bytes; no theorem below depends on their value). -/
def sr_buff_to_uint32 (buff : List Nat) (pos : Nat) : Nat :=
  ((buff.getD pos 0 * 256 + buff.getD (pos + 1) 0) * 256 +
    buff.getD (pos + 2) 0) * 256 + buff.getD (pos + 3) 0

/-- sr_uint32_to_buff writing a value as 4 big-endian bytes.  Modelled
from the spec, as for sr_buff_to_uint32. -/
def sr_uint32_to_buff (v : Nat) : List Nat :=
  [v / 2 ^ 24 % 256, v / 2 ^ 16 % 256, v / 2 ^ 8 % 256, v % 256]

/-- Scan loop of cm_conn_in_buff_process
(src/connection_manager.c:733-755).  proc abstracts cm_conn_msg_process
(true = SR_ERR_OK); a processing failure breaks the loop after the scan
position was already advanced past the failed message.  Returns the
dispatched payloads in order, the final scan position and the result
code; none means the fuel ran out (the C loop can keep running on a
wrapped-around size_t difference once the scan position overshoots the
buffer). -/
def cm_in_buff_loop (maxMsgSize : Nat) (proc : List Nat → Bool)
    (buff : List Nat) (buffSize : Nat) :
    Nat → Nat → List (List Nat) → Option (List (List Nat) × Nat × SrErr)
  | 0, _, _ => none
  | fuel + 1, pos, acc =>
      if size_t_sub buffSize pos > SR_MSG_PREAM_SIZE then
        if sr_buff_to_uint32 buff pos = 0 ∨
            sr_buff_to_uint32 buff pos > maxMsgSize then
          some (acc.reverse, pos, .malformedMsg)
        else if size_t_sub buffSize pos ≥ sr_buff_to_uint32 buff pos then
          if proc ((buff.drop (pos + SR_MSG_PREAM_SIZE)).take
              (sr_buff_to_uint32 buff pos)) then
            cm_in_buff_loop maxMsgSize proc buff buffSize fuel
              (pos + SR_MSG_PREAM_SIZE + sr_buff_to_uint32 buff pos)
              (((buff.drop (pos + SR_MSG_PREAM_SIZE)).take
                  (sr_buff_to_uint32 buff pos)) :: acc)
          else
            some ((((buff.drop (pos + SR_MSG_PREAM_SIZE)).take
                (sr_buff_to_uint32 buff pos)) :: acc).reverse,
              pos + SR_MSG_PREAM_SIZE + sr_buff_to_uint32 buff pos, .internal)
        else
          some (acc.reverse, pos, .ok)
      else
        some (acc.reverse, pos, .ok)

/-- cm_conn_in_buff_process (src/connection_manager.c:715-767): scan the
buffer, then either return SR_ERR_MALFORMED_MSG directly (skipping
compaction, so in_buff.pos is left unchanged) or run the compaction:
when the scan position is non-zero and bytes remain they are moved to
the front, otherwise in_buff.pos is reset to 0.  Returns the dispatched
payloads, the residual buffer content and the result code; none models
reaching undefined C behavior (fuel exhaustion, or a memmove whose
size_t length wrapped around because the scan position overshot the
buffer). -/
def cm_conn_in_buff_process (maxMsgSize : Nat) (proc : List Nat → Bool)
    (buff : List Nat) (fuel : Nat) :
    Option (List (List Nat) × List Nat × SrErr) :=
  if buff.length ≤ SR_MSG_PREAM_SIZE then some ([], buff, .ok)
  else
    match cm_in_buff_loop maxMsgSize proc buff buff.length fuel 0 [] with
    | none => none
    | some (disp, pos, rc) =>
        if rc = .malformedMsg then some (disp, buff, .malformedMsg)
        else
          if pos ≠ 0 ∧ size_t_sub buff.length pos > 0 then
            if pos ≤ buff.length then some (disp, buff.drop pos, rc)
            else none
          else some (disp, [], rc)

/-- Close decision of cm_conn_read_cb (src/connection_manager.c:823-837):
any error reported by cm_conn_in_buff_process sets close_requested and
the connection is closed via cm_conn_close. -/
def cm_conn_read_cb_closes (rc : SrErr) : Bool := rc ≠ .ok

/-! ## Persistence Manager

Embedding of src/persistence_manager.c at the level of parsed persist
files: the libyang tree of a module persist file is represented by its
two mutable subtrees (enabled feature names and subscription entries),
and the xpath-driven node selection of pm_save_persistent_data by the
corresponding list operations. -/

/-- Notification event kinds (Sr__NotificationEvent). -/
inductive NotifEvent where
  | moduleInstall
  | featureEnable
  | moduleChange
  deriving DecidableEq, Repr

/-- One persistent subscription entry of a module persist file
(subscription[type, destination-address, destination-id] of the
sysrepo-persistent-data schema). -/
structure PmSubscription where
  event_type : NotifEvent
  dst_address : String
  dst_id : Nat
  deriving DecidableEq, Repr

/-- Parsed content of a module persist file. -/
structure PmData where
  features : List String
  subscriptions : List PmSubscription
  deriving DecidableEq, Repr

/-- On-disk state of one module persist file: absent, present but parsing
to an empty (NULL) tree, present with content, or failing strict
parsing. -/
inductive PmFile where
  | missing
  | empty
  | tree (d : PmData)
  | corrupt
  deriving DecidableEq, Repr

/-- Read-only load path of pm_load_data_tree
(src/persistence_manager.c:98-165): a missing file yields
SR_ERR_DATA_MISSING (src/persistence_manager.c:120-123), a file parsing
to an empty tree yields a NULL tree with SR_ERR_OK, and a strict-parse
failure yields SR_ERR_INTERNAL. -/
def pm_load_data_tree_ro : PmFile → Except SrErr (Option PmData)
  | .missing => .error .dataMissing
  | .empty => .ok none
  | .tree d => .ok (some d)
  | .corrupt => .error .internal

/-- Read-write load path of pm_load_data_tree
(src/persistence_manager.c:98-165): a missing file is created (empty) and
loads as a NULL tree.  Returns the loaded tree together with the on-disk
state of the file right after the call. -/
def pm_load_data_tree_rw : PmFile → Except SrErr (Option PmData × PmFile)
  | .missing => .ok (none, .empty)
  | .empty => .ok (none, .empty)
  | .tree d => .ok (some d, .tree d)
  | .corrupt => .error .internal

/-- pm_get_features (src/persistence_manager.c:353-420): load the persist
file read-only and collect the feature-name leaves; a NULL tree returns
an empty list with SR_ERR_OK, a load error propagates. -/
def pm_get_features (f : PmFile) : Except SrErr (List String) :=
  match pm_load_data_tree_ro f with
  | .error e => .error e
  | .ok none => .ok []
  | .ok (some d) => .ok d.features

/-- pm_get_subscriptions (src/persistence_manager.c:474-555): load the
persist file read-only and collect the subscription entries whose type
leaf matches the requested event kind; a NULL tree returns an empty list
with SR_ERR_OK, a load error propagates. -/
def pm_get_subscriptions (f : PmFile) (ev : NotifEvent) :
    Except SrErr (List PmSubscription) :=
  match pm_load_data_tree_ro f with
  | .error e => .error e
  | .ok none => .ok []
  | .ok (some d) =>
      .ok (d.subscriptions.filter (fun s => decide (s.event_type = ev)))

/-- pm_remove_subscriptions_for_destination
(src/persistence_manager.c:453-472), i.e. pm_save_persistent_data
(src/persistence_manager.c:182-258) in delete mode with the
subscription[destination-address] xpath: load the file read-write
(creating it when missing), fail with SR_ERR_DATA_MISSING on a NULL
tree, otherwise unlink every subscription node whose destination address
matches and save the tree back.  Returns the result code and the on-disk
file state after the call. -/
def pm_remove_subscriptions_for_destination (f : PmFile) (dst : String) :
    SrErr × PmFile :=
  match pm_load_data_tree_rw f with
  | .error e => (e, f)
  | .ok (none, f2) => (.dataMissing, f2)
  | .ok (some d, _) =>
      (.ok, .tree { d with subscriptions :=
        d.subscriptions.filter (fun s => decide (s.dst_address ≠ dst)) })

/-- Persist files of all modules, keyed by module name. -/
def PmStore : Type := List (String × PmFile)

/-- Look up a module persist file; a module without an entry has no
file on disk. -/
def pmStoreGet (st : PmStore) (m : String) : PmFile :=
  match List.find? (fun e => decide (e.1 = m)) st with
  | some e => e.2
  | none => .missing

/-- Replace a module persist file in the store. -/
def pmStoreSet (st : PmStore) (m : String) (f : PmFile) : PmStore :=
  (m, f) :: List.filter (fun e => decide (e.1 ≠ m)) st

/-- Subscription entries actually present in a persist file. -/
def pmFileSubs : PmFile → List PmSubscription
  | .tree d => d.subscriptions
  | _ => []

/-- A persist file holds no subscription for the given destination. -/
def pmFileCleanOf (f : PmFile) (dst : String) : Prop :=
  ∀ s ∈ pmFileSubs f, s.dst_address ≠ dst

/-! ## Notification Processor: destination cleanup

Embedding of np_unsubscribe_destination
(src/notification_processor.c:389-416) over the destination-info index
(dst_info_btree).  The purge call appears in the source as
pm_delete_subscriptions_for_destination
(src/notification_processor.c:405), an identifier defined nowhere in the
repository; it is bound here to pm_remove_subscriptions_for_destination
(src/persistence_manager.c:453-472), the only purge routine defined, with
the identical signature and matching log text (see theorem C7). -/

/-- Destination info entry (np_dst_info_s of
src/notification_processor.c): a destination address and the modules it
has subscriptions for. -/
structure NpDstInfo where
  dst_address : String
  subscribed_modules : List String
  deriving DecidableEq, Repr

/-- The destination-info index (dst_info_btree), keyed by address. -/
def NpDstIndex : Type := List NpDstInfo

/-- sr_btree_search on the destination-info index. -/
def npIndexFind (idx : NpDstIndex) (dst : String) : Option NpDstInfo :=
  List.find? (fun i => decide (i.dst_address = dst)) idx

/-- np_dst_info_remove with a NULL module name
(src/notification_processor.c:180-184): the whole destination entry is
deleted from the index. -/
def npIndexRemove (idx : NpDstIndex) (dst : String) : NpDstIndex :=
  List.filter (fun i => decide (i.dst_address ≠ dst)) idx

/-- Purge of one module persist file within the store. -/
def pm_remove_subs_for_dst_store (st : PmStore) (m : String) (dst : String) :
    SrErr × PmStore :=
  let r := pm_remove_subscriptions_for_destination (pmStoreGet st m) dst
  (r.1, pmStoreSet st m r.2)

/-- Loop body of np_unsubscribe_destination
(src/notification_processor.c:402-409): purge the persist file of each
subscribed module in order, stopping at the first error. -/
def np_purge_modules (dst : String) : PmStore → List String → SrErr × PmStore
  | st, [] => (.ok, st)
  | st, m :: ms =>
      let r := pm_remove_subs_for_dst_store st m dst
      if r.1 = .ok then np_purge_modules dst r.2 ms else r

/-- np_unsubscribe_destination (src/notification_processor.c:389-416):
look up the destination in the index; when present, purge the persist
file of every module recorded for it and then remove the index entry;
an unknown destination is a successful no-op.  A purge error returns
immediately, leaving the index entry in place. -/
def np_unsubscribe_destination (np : NpDstIndex) (st : PmStore)
    (dst : String) : SrErr × NpDstIndex × PmStore :=
  match npIndexFind np dst with
  | none => (.ok, np, st)
  | some info =>
      if (np_purge_modules dst st info.subscribed_modules).1 = .ok then
        (.ok, npIndexRemove np dst,
          (np_purge_modules dst st info.subscribed_modules).2)
      else ((np_purge_modules dst st info.subscribed_modules).1, np,
        (np_purge_modules dst st info.subscribed_modules).2)

/-! ## Running-datastore node enablement

Embedding of rp_dt_enable_xpath and rp_dt_enable_key_nodes
(src/rp_dt_xpath.c:449-517) over an abstract schema graph.  The xpath
validation that resolves the textual xpath to the target schema node
(rp_dt_validate_node_xpath) belongs to the libyang layer and is elided:
the functions below start from the resolved target node.  The dm node
state helpers are implemented in data_manager.c, which is not in the
source tree; they are modelled from the spec using their contracts in
src/data_manager.h (dm_set_node_state sets the state of a node,
dm_is_node_enabled is true iff the state is DM_NODE_ENABLED or
DM_NODE_ENABLED_WITH_CHILDREN, dm_is_enabled_check_recursively is true
iff the node is enabled directly or any of its ancestors is
DM_NODE_ENABLED_WITH_CHILDREN). -/

/-- Schema node kinds (LYS_NODE of libyang) relevant to the walk. -/
inductive LysNodetype where
  | container
  | list
  | leaf
  | leaflist
  | choice
  | anyxml
  | augment
  deriving DecidableEq, Repr

/-- One schema node: kind, parent link, key children (node ids of the
key leaves, meaningful for lists) and augment target (meaningful for
augments).  Nodes are identified by their index in the schema array. -/
structure LysNode where
  nodetype : LysNodetype
  parent : Option Nat
  keys : List Nat
  augment_target : Option Nat
  deriving DecidableEq, Repr

/-- A schema: the array of its nodes. -/
abbrev LysSchema : Type := List LysNode

/-- Node states in the running data store (dm_node_state_t,
src/data_manager.h:64-68). -/
inductive DmNodeState where
  | disabled
  | enabled
  | enabledWithChildren
  deriving DecidableEq, Repr

/-- Assignment of a running-datastore state to every schema node. -/
abbrev NodeStates : Type := Nat → DmNodeState

/-- dm_set_node_state (declared src/data_manager.h:281-287; modelled from
the spec: sets the state of the given node). -/
def dm_set_node_state (σ : NodeStates) (n : Nat) (st : DmNodeState) :
    NodeStates :=
  fun x => if x = n then st else σ x

/-- dm_is_node_enabled (declared src/data_manager.h:260-265; modelled
from the spec: true iff the state of the node is DM_NODE_ENABLED or
DM_NODE_ENABLED_WITH_CHILDREN). -/
def dm_is_node_enabled (σ : NodeStates) (n : Nat) : Bool :=
  match σ n with
  | .disabled => false
  | .enabled => true
  | .enabledWithChildren => true

/-- rp_dt_enable_key_nodes (src/rp_dt_xpath.c:449-468): for a list node,
set every not-yet-enabled key leaf to DM_NODE_ENABLED; for any other
node kind this is a no-op. -/
def rp_dt_enable_key_nodes (nd : LysNode) (σ : NodeStates) : NodeStates :=
  if nd.nodetype = .list then
    nd.keys.foldl (fun τ k =>
      if dm_is_node_enabled τ k then τ else dm_set_node_state τ k .enabled) σ
  else σ

/-- Upward walk of rp_dt_enable_xpath (src/rp_dt_xpath.c:493-514): climb
the parent chain; a parentless augment node is replaced by its target;
every not-yet-enabled node is set to DM_NODE_ENABLED and, if it is a
list, its key leaves are enabled.  Fuel bounds the walk (the C loop
follows raw parent pointers); none also covers a dangling node id. -/
def rp_dt_enable_ancestors (sch : LysSchema) :
    NodeStates → Option Nat → Nat → Option NodeStates
  | σ, none, _ => some σ
  | _, some _, 0 => none
  | σ, some n, fuel + 1 =>
      match sch[n]? with
      | none => none
      | some nd =>
          if nd.parent = none ∧ nd.nodetype = .augment then
            rp_dt_enable_ancestors sch σ nd.augment_target fuel
          else
            if dm_is_node_enabled σ n then
              rp_dt_enable_ancestors sch σ nd.parent fuel
            else
              rp_dt_enable_ancestors sch
                (rp_dt_enable_key_nodes nd (dm_set_node_state σ n .enabled))
                nd.parent fuel

/-- rp_dt_enable_xpath (src/rp_dt_xpath.c:470-517), after the xpath has
been resolved to the target node: set the target to
DM_NODE_ENABLED_WITH_CHILDREN when it is a container or a list and to
DM_NODE_ENABLED otherwise, then run the upward walk from its parent. -/
def rp_dt_enable_xpath (sch : LysSchema) (σ : NodeStates) (tgt : Nat)
    (fuel : Nat) : Option NodeStates :=
  match sch[tgt]? with
  | none => none
  | some nd =>
      if nd.nodetype = .container ∨ nd.nodetype = .list then
        rp_dt_enable_ancestors sch
          (dm_set_node_state σ tgt .enabledWithChildren) nd.parent fuel
      else
        rp_dt_enable_ancestors sch (dm_set_node_state σ tgt .enabled)
          nd.parent fuel

/-- The sequence of nodes visited by the upward walk (parent chain with
the augment redirection), independent of any state. -/
def rp_dt_ancestor_chain (sch : LysSchema) :
    Option Nat → Nat → Option (List Nat)
  | none, _ => some []
  | some _, 0 => none
  | some n, fuel + 1 =>
      match sch[n]? with
      | none => none
      | some nd =>
          if nd.parent = none ∧ nd.nodetype = .augment then
            rp_dt_ancestor_chain sch nd.augment_target fuel
          else
            match rp_dt_ancestor_chain sch nd.parent fuel with
            | none => none
            | some rest => some (n :: rest)

/-- dm_is_enabled_check_recursively (declared src/data_manager.h:274-279;
modelled from the spec: a node counts as enabled iff it is enabled
directly or any of its ancestors is in state
DM_NODE_ENABLED_WITH_CHILDREN).  The ancestors are the nodes of the
upward chain. -/
def dm_is_enabled_check_recursively (sch : LysSchema) (σ : NodeStates)
    (n : Nat) (fuel : Nat) : Option Bool :=
  match sch[n]? with
  | none => none
  | some nd =>
      match rp_dt_ancestor_chain sch nd.parent fuel with
      | none => none
      | some chain =>
          some (dm_is_node_enabled σ n ||
            chain.any (fun a => decide (σ a = .enabledWithChildren)))

/-- Concrete 4-node schema for the C6 witness: a container (0) holding a
list (1) with key leaf (2) and a plain leaf (3). -/
def c6Schema : LysSchema :=
  [{ nodetype := .container, parent := none, keys := [],
     augment_target := none },
   { nodetype := .list, parent := some 0, keys := [2],
     augment_target := none },
   { nodetype := .leaf, parent := some 1, keys := [],
     augment_target := none },
   { nodetype := .leaf, parent := some 1, keys := [],
     augment_target := none }]

/-- All-disabled initial state for the C6 witness. -/
def c6AllDisabled : NodeStates := fun _ => .disabled

/-- The resolved target node of the C6 witness (leaf 3). -/
def c6TargetNode : LysNode :=
  { nodetype := .leaf, parent := some 1, keys := [], augment_target := none }

/-- State after enabling leaf 3 in the witness schema. -/
def c6After : NodeStates :=
  (rp_dt_enable_xpath c6Schema c6AllDisabled 3 5).getD c6AllDisabled

/-! ## Balanced-tree index backends

Embedding of sr_btree_get_at (src/utils/sr_btree.c:161-187).  The two
build-time backends are modelled over the item sequence in comparator
order that the underlying library maintains: avl_at of the AVL backend
returns the item at the requested index directly and statelessly, while
the red-black backend keeps an iterator pointer in the tree context
(rb_list): a call with index 0 (re)opens it via rbopenlist; a call that
finds rb_list non-NULL returns its next item via rbreadlist, and when
that yields NULL the code calls rbcloselist but leaves the freed
pointer in tree->rb_list (:177-183), so a later call with a nonzero
index passes the NULL check and reads the freed list — undefined
behavior; a call finding rb_list NULL returns NULL.  The index argument
is otherwise ignored. -/

/-- AVL-backend tree: the items in comparator order. -/
structure AvlTree (α : Type) where
  items : List α
  deriving DecidableEq, Repr

/-- sr_btree_get_at, AVL backend (src/utils/sr_btree.c:168-171): avl_at
returns the item at the index or NULL past the end; no state changes. -/
def sr_btree_get_at_avl {α : Type} (t : AvlTree α) (index : Nat) :
    Option α × AvlTree α :=
  (t.items[index]?, t)

/-- The rb_list pointer of the red-black backend: NULL (as left by the
calloc of sr_btree_init), an open iterator holding the remaining item
suffix, or the stale pointer to the freed list that rbcloselist at
src/utils/sr_btree.c:180 leaves behind in tree->rb_list. -/
inductive RbIterState (α : Type) where
  | null : RbIterState α
  | opened : List α → RbIterState α
  | stale : RbIterState α
  deriving DecidableEq, Repr

/-- Red-black-backend tree: the items in comparator order plus the
rb_list pointer state. -/
structure RbTree (α : Type) where
  items : List α
  rb_list : RbIterState α
  deriving DecidableEq, Repr

/-- sr_btree_get_at, red-black backend (src/utils/sr_btree.c:173-183):
index 0 (re)opens the iterator over the whole tree; a non-NULL rb_list
yields its next item, and on exhaustion the list is closed with the
freed pointer left in rb_list (stale); a NULL rb_list yields NULL; a
read of a stale rb_list (nonzero index after exhaustion) is a use after
free, modelled as none — no defined result. -/
def sr_btree_get_at_rb {α : Type} (t : RbTree α) (index : Nat) :
    Option (Option α × RbTree α) :=
  let t1 :=
    if index = 0 then { t with rb_list := RbIterState.opened t.items } else t
  match t1.rb_list with
  | RbIterState.null => some (none, t1)
  | RbIterState.opened [] => some (none, { t1 with rb_list := RbIterState.stale })
  | RbIterState.opened (x :: rest) =>
      some (some x, { t1 with rb_list := RbIterState.opened rest })
  | RbIterState.stale => none

/-- Outputs of sr_btree_get_at under the AVL backend for the index
sequence 0..k. -/
def avlSeqOutputs {α : Type} (items : List α) (k : Nat) : List (Option α) :=
  (List.range (k + 1)).map (fun i => (sr_btree_get_at_avl ⟨items⟩ i).1)

/-- State-threaded outputs of sr_btree_get_at under the red-black
backend for a given index sequence; none as soon as any call hits the
undefined read of the stale freed rb_list. -/
def rbSeqAux {α : Type} (t : RbTree α) : List Nat → Option (List (Option α))
  | [] => some []
  | i :: is =>
      match sr_btree_get_at_rb t i with
      | none => none
      | some (out, t2) =>
          match rbSeqAux t2 is with
          | none => none
          | some outs => some (out :: outs)

/-- Outputs of sr_btree_get_at under the red-black backend for the index
sequence 0..k on a freshly initialized tree (rb_list starts NULL,
sr_btree_init calloc); none if the run reaches undefined behavior. -/
def rbSeqOutputs {α : Type} (items : List α) (k : Nat) :
    Option (List (Option α)) :=
  rbSeqAux ⟨items, RbIterState.null⟩ (List.range (k + 1))

/-- The red-black rb_list state after the sequential calls with indices
0..j-1 (meaningful while j is at most one past the item count: beyond
that the run has already hit undefined behavior). -/
def rbStateAfter {α : Type} (items : List α) (j : Nat) : RbIterState α :=
  if j = 0 then RbIterState.null
  else if j ≤ items.length then RbIterState.opened (items.drop j)
  else RbIterState.stale

/-! ## Data Manager: commit pipeline

Modelled from the spec: dm_commit is implemented in data_manager.c,
which is not in the source tree; only its contract
(src/data_manager.h:187-207) and the spec (§4.5.3, §7) describe it.  The
pipeline below follows the spec phases — session-local validation,
commit-lock acquisition, loading fresh trees, replay of the
operation log (short-circuited per module when the on-disk timestamp
still matches the session load timestamp), merge validation, and
persisting under per-file locks — with the atomic per-file installation
that §7 requires (write to a temporary file and rename into place only
after every file lock was acquired and every write succeeded).  Data
trees are abstract handles; the schema-library callouts are an
environment. -/

/-- Per-module data file of the main datastore: modification timestamp
and serialized byte content. -/
structure DmFile where
  ts : Nat
  content : List Nat
  deriving DecidableEq, Repr

/-- The persistent datastore: data files keyed by module id. -/
abbrev DmDataStore := List (Nat × DmFile)

/-- Look up a module data file. -/
def dmStoreGet (st : DmDataStore) (m : Nat) : Option DmFile :=
  match List.find? (fun e => decide (e.1 = m)) st with
  | some e => some e.2
  | none => none

/-- Replace a module data file. -/
def dmStoreSet (st : DmDataStore) (m : Nat) (f : DmFile) : DmDataStore :=
  (m, f) :: List.filter (fun e => decide (e.1 ≠ m)) st

/-- Session working-copy entry (dm_data_info_t,
src/data_manager.h:52-59): module id, modified flag, abstract data-tree
handle and load timestamp. -/
structure DmDataInfo where
  name : Nat
  modified : Bool
  tree : Nat
  ts : Nat
  deriving DecidableEq, Repr

/-- Session state relevant to commit: the working copies and the
operation log of (module id, operation id) entries
(dm_sess_op_s, src/data_manager.h:83-88). -/
structure DmSession where
  infos : List DmDataInfo
  ops : List (Nat × Nat)
  deriving DecidableEq, Repr

/-- Environment of one commit: the schema-library callouts — tree
validation, parsing of file content into a tree, application of one
logged operation, serialization — plus data-file lock availability per
module and the timestamp given to the new files. -/
structure CommitEnv where
  validate : Nat → Bool
  parse : List Nat → Option Nat
  applyOp : Nat → Nat → Option Nat
  serialize : Nat → List Nat
  lockOk : Nat → Bool
  newTs : Nat

/-- Phases 3-4 for one module: load the fresh tree from disk (an absent
file loads as empty content) and replay the session operations for the
module, short-circuiting to the session copy when the on-disk timestamp
still matches the session load timestamp (spec §4.5.3 phases 3-4). -/
def dm_commit_load_replay (env : CommitEnv) (st : DmDataStore)
    (ops : List (Nat × Nat)) (info : DmDataInfo) : Option Nat :=
  match env.parse ((dmStoreGet st info.name).getD
      { ts := 0, content := [] }).content with
  | none => none
  | some fresh =>
      if info.ts = ((dmStoreGet st info.name).getD
          { ts := 0, content := [] }).ts then
        some info.tree
      else
        (ops.filter (fun o => decide (o.1 = info.name))).foldl
          (fun acc o => match acc with
            | none => none
            | some t => env.applyOp o.2 t) (some fresh)

/-- dm_commit, modelled from the spec (§4.5.3 phases 1-7 with the atomic
per-file installation of §7).  A commit with no modified module is a
no-op; phase failures return ValidationFailed or CommitFailed with the
datastore untouched; on success all files are installed and the session
operation log is cleared with the working-copy timestamps refreshed. -/
def dm_commit (env : CommitEnv) (st : DmDataStore) (sess : DmSession) :
    SrErr × DmDataStore × DmSession :=
  if (sess.infos.filter (fun i => i.modified)).isEmpty then (.ok, st, sess)
  else if (sess.infos.filter (fun i => i.modified)).all
      (fun i => env.validate i.tree) = false then
    (.validationFailed, st, sess)
  else
    match (sess.infos.filter (fun i => i.modified)).mapM
        (fun i => (dm_commit_load_replay env st sess.ops i).map
          (fun t => (i.name, t))) with
    | none => (.commitFailed, st, sess)
    | some replayed =>
        if replayed.all (fun p => env.validate p.2) = false then
          (.validationFailed, st, sess)
        else if (sess.infos.filter (fun i => i.modified)).all
            (fun i => env.lockOk i.name) = false then
          (.commitFailed, st, sess)
        else
          (.ok,
           replayed.foldl (fun acc p => dmStoreSet acc p.1
             { ts := env.newTs, content := env.serialize p.2 }) st,
           { infos := sess.infos.map (fun i =>
               if i.modified then
                 { i with modified := false, ts := env.newTs }
               else i),
             ops := [] })

/-- Concrete failing commit environment for the C1 witness: validation
rejects every tree. -/
def c1Env : CommitEnv :=
  { validate := fun _ => false, parse := fun _ => some 0,
    applyOp := fun _ t => some t, serialize := fun _ => [],
    lockOk := fun _ => true, newTs := 1 }

/-! ## Theorems -/

theorem seqStep_inv {s : SeqState} (hs : SeqInv s) (e : SeqEvent) :
    SeqInv (seqStep s e) := by
  unfold SeqInv at hs ⊢
  cases e with
  | reqArrive ok =>
      cases hi : s.inflight with
      | some r =>
          rw [hi] at hs
          simp at hs
          cases ok <;> simp [seqStep, cm_req_process_default, hs, hi]
      | none =>
          rw [hi] at hs
          simp at hs
          cases ok <;> simp [seqStep, cm_req_process_default, hs, hi]
  | rpComplete ok =>
      cases hi : s.inflight with
      | none => simpa [seqStep, hi] using hs
      | some r =>
          rw [hi] at hs
          simp at hs
          cases hq : s.sess.request_queue with
          | nil =>
              simp [seqStep, hi, cm_msg_send, cm_msg_send_counters, hs, hq]
          | cons q rest =>
              cases ok <;>
                simp [seqStep, hi, cm_msg_send, cm_msg_send_counters, hs, hq]
  | srvReqSend ok =>
      cases hi : s.inflight with
      | some r =>
          rw [hi] at hs
          simp at hs
          simp [seqStep, cm_msg_send, cm_msg_send_counters, hs, hi]
      | none =>
          rw [hi] at hs
          simp at hs
          cases hq : s.sess.request_queue with
          | nil =>
              simp [seqStep, cm_msg_send, cm_msg_send_counters, hs, hi, hq]
          | cons q rest =>
              cases ok <;>
                simp [seqStep, cm_msg_send, cm_msg_send_counters, hs, hi, hq]

theorem seqStep_invOk {s : SeqState} (hs : SeqInvOk s) (e : SeqEvent)
    (hok : e.okFlag = true) : SeqInvOk (seqStep s e) := by
  obtain ⟨hinv, hpart, hqe⟩ := hs
  refine ⟨seqStep_inv hinv e, ?_⟩
  unfold SeqInv at hinv
  cases e with
  | reqArrive ok =>
      cases hok
      cases hi : s.inflight with
      | some r =>
          rw [hi] at hinv hpart
          simp at hinv
          simp [seqStep, cm_req_process_default, hinv, hi]
          rw [← hpart]
          simp
      | none =>
          have hq0 : s.sess.request_queue = [] := hqe hi
          rw [hi] at hinv hpart
          rw [hq0] at hpart
          simp at hinv hpart
          simp [seqStep, cm_req_process_default, hinv, hi, hq0, hpart]
  | rpComplete ok =>
      cases hok
      cases hi : s.inflight with
      | none =>
          rw [hi] at hpart
          simp [seqStep, hi]
          exact ⟨hpart, hqe hi⟩
      | some r =>
          rw [hi] at hinv hpart
          simp at hinv
          cases hq : s.sess.request_queue with
          | nil =>
              rw [hq] at hpart
              simp at hpart
              simp [seqStep, hi, cm_msg_send, cm_msg_send_counters, hinv, hq,
                hpart]
          | cons q rest =>
              rw [hq] at hpart
              simp [seqStep, hi, cm_msg_send, cm_msg_send_counters, hinv, hq]
              rw [← hpart]
              simp
  | srvReqSend ok =>
      cases hok
      cases hi : s.inflight with
      | some r =>
          rw [hi] at hinv hpart
          simp at hinv
          simp [seqStep, cm_msg_send, cm_msg_send_counters, hinv, hi]
          rw [← hpart]
          simp [hi]
      | none =>
          have hq0 : s.sess.request_queue = [] := hqe hi
          rw [hi] at hinv hpart
          rw [hq0] at hpart
          simp at hinv hpart
          simp [seqStep, cm_msg_send, cm_msg_send_counters, hinv, hi, hq0,
            hpart]

theorem seqFold_inv (es : List SeqEvent) (s : SeqState) (hs : SeqInv s) :
    SeqInv (es.foldl seqStep s) := by
  induction es generalizing s with
  | nil => exact hs
  | cons e es ih => exact ih _ (seqStep_inv hs e)

theorem seqFold_invOk (es : List SeqEvent) (s : SeqState) (hs : SeqInvOk s)
    (hok : ∀ e ∈ es, e.okFlag = true) : SeqInvOk (es.foldl seqStep s) := by
  induction es generalizing s with
  | nil => exact hs
  | cons e es ih =>
      exact ih _ (seqStep_invOk hs e (hok e (List.mem_cons_self e es)))
        (fun x hx => hok x (List.mem_cons_of_mem e hx))

/-- C2: the Connection Manager keeps at most one request per session in
flight to the Request Processor — cm_req_process forwards a request only
when rp_req_cnt = 0 (raising it to 1) and enqueues it otherwise, and
cm_msg_send decrements the counter when a response leaves and refills the
pipeline with exactly the queue head — hence in every reachable state of
a session rp_req_cnt ≤ 1, and on every run in which each hand-off to RP
succeeds (a failed hand-off closes the connection in the C code) the
responses leave in request-arrival order: the responded history is a
prefix of the arrival history. -/
theorem C2_sequencer_fifo (es : List SeqEvent) :
    (seqRun es).sess.rp_req_cnt ≤ 1 ∧
    (seqAllOk es → ∃ t, (seqRun es).arrived = (seqRun es).responded ++ t) := by
  unfold seqRun
  constructor
  · have h := seqFold_inv es seqInit (by simp [SeqInv, seqInit])
    unfold SeqInv at h
    rw [h]
    split <;> omega
  · intro hok
    have h := seqFold_invOk es seqInit
      (by refine ⟨by simp [SeqInv, seqInit], by simp [seqInit], fun _ => rfl⟩) hok
    exact ⟨(es.foldl seqStep seqInit).inflight.toList ++
      (es.foldl seqStep seqInit).sess.request_queue, (h.2.1).symm⟩

/-- Witness for C2 at a concrete run: two requests arrive back-to-back
(the second is queued), the first completes; responses so far are a
prefix of arrivals. -/
theorem C2_sequencer_fifo_witness :
    ∃ t, (seqRun [SeqEvent.reqArrive true, SeqEvent.reqArrive true,
                  SeqEvent.rpComplete true]).arrived =
         (seqRun [SeqEvent.reqArrive true, SeqEvent.reqArrive true,
                  SeqEvent.rpComplete true]).responded ++ t :=
  (C2_sequencer_fifo [SeqEvent.reqArrive true, SeqEvent.reqArrive true,
      SeqEvent.rpComplete true]).2 (by decide)

/-- C8: an incoming client response on a server-role connection is
forwarded to the Request Processor exactly when the session's
rp_resp_expected counter is positive; with the counter at zero,
cm_resp_process fails with SR_ERR_INVAL_ARG (the unexpected-response
error logged by the code) and nothing is forwarded; and cm_msg_send
increments rp_resp_expected each time a server-to-client request is
sent on the session. -/
theorem C8_resp_expected (c : CmSessionCtx) (validOk rpOk : Bool)
    (hv : validOk = true) :
    (c.rp_resp_expected > 0 →
      cm_resp_process .afUnixServer validOk c = (.ok, true)) ∧
    (c.rp_resp_expected = 0 →
      cm_resp_process .afUnixServer validOk c = (.invalArg, false)) ∧
    (cm_msg_send .request c rpOk).1.rp_resp_expected = c.rp_resp_expected + 1 := by
  cases hv
  refine ⟨fun hp => by simp [cm_resp_process, hp],
          fun hz => by simp [cm_resp_process, hz],
          ?_⟩
  by_cases hc : c.rp_req_cnt = 0 <;>
    cases hq : c.request_queue <;>
      cases rpOk <;>
        simp [cm_msg_send, cm_msg_send_counters, hc, hq]

/-- Witness for C8 at a concrete session context. -/
theorem C8_resp_expected_witness :
    (({ rp_req_cnt := 0, request_queue := [], rp_resp_expected := 1 } :
        CmSessionCtx).rp_resp_expected > 0 →
      cm_resp_process .afUnixServer true
        { rp_req_cnt := 0, request_queue := [], rp_resp_expected := 1 } =
        (.ok, true)) ∧
    (({ rp_req_cnt := 0, request_queue := [], rp_resp_expected := 1 } :
        CmSessionCtx).rp_resp_expected = 0 →
      cm_resp_process .afUnixServer true
        { rp_req_cnt := 0, request_queue := [], rp_resp_expected := 1 } =
        (.invalArg, false)) ∧
    (cm_msg_send .request
        { rp_req_cnt := 0, request_queue := [], rp_resp_expected := 1 }
        true).1.rp_resp_expected =
      ({ rp_req_cnt := 0, request_queue := [], rp_resp_expected := 1 } :
        CmSessionCtx).rp_resp_expected + 1 :=
  C8_resp_expected { rp_req_cnt := 0, request_queue := [], rp_resp_expected := 1 }
    true true rfl

/-- C9: a session-stop request whose body session_id differs from the id
of the session it arrived on is answered with an SR_ERR_UNSUPPORTED
response carrying the message that stopping other sessions is not
allowed; rp_session_stop is not invoked and no session is dropped, so the
requesting session remains usable. -/
theorem C9_session_stop_other (sessId reqId : Nat) (rpStop : SrErr)
    (sendOk : Bool) (h : sessId ≠ reqId) :
    cm_session_stop_req_process sessId reqId rpStop sendOk =
      { resp := { result := .unsupported,
                  error_msg := some "Stopping of other sessions is not allowed",
                  resp_session_id := none },
        rp_stop_called := false,
        session_dropped := false } := by
  simp [cm_session_stop_req_process, h]

/-- Witness for C9 at the concrete ids 1 and 2. -/
theorem C9_session_stop_other_witness :
    cm_session_stop_req_process 1 2 .ok true =
      { resp := { result := .unsupported,
                  error_msg := some "Stopping of other sessions is not allowed",
                  resp_session_id := none },
        rp_stop_called := false,
        session_dropped := false } :=
  C9_session_stop_other 1 2 .ok true (by decide)

theorem size_t_sub_of_le {a b : Nat} (h : b ≤ a) (ha : a - b < SIZE_T_MOD) :
    size_t_sub a b = a - b := by
  unfold size_t_sub SIZE_T_MOD at *
  omega

/-- C3: the frame extractor of cm_conn_in_buff_process violates the claim
on two counts, evaluated here at concrete inputs.  First, a buffer
holding only part of one frame (preamble announcing 10 payload bytes,
2 received) is not kept for the next read: the scan position is 0, so the
compaction branch resets in_buff.pos to 0 and the 6 buffered bytes are
discarded.  Second, the completeness check at
src/connection_manager.c:739 compares the remaining bytes against
msg_size instead of SR_MSG_PREAM_SIZE + msg_size, so a frame whose
11 buffered bytes cover its preamble but only 7 of its 10 payload bytes
is dispatched anyway (with bytes missing), after which the scan position
overshoots the buffer and the wrapped-around size_t difference makes the
rescan read a zero length and report SR_ERR_MALFORMED_MSG. -/
theorem C3_frame_extractor_bug :
    cm_conn_in_buff_process 16 (fun _ => true) [0, 0, 0, 10, 1, 2] 8 =
      some ([], [], .ok) ∧
    (4 + 10 > 11 ∧
      cm_conn_in_buff_process 16 (fun _ => true)
          [0, 0, 0, 10, 1, 2, 3, 4, 5, 6, 7] 8 =
        some ([[1, 2, 3, 4, 5, 6, 7]],
          [0, 0, 0, 10, 1, 2, 3, 4, 5, 6, 7], .malformedMsg)) := by
  refine ⟨by decide, by decide, by decide⟩

/-- Soundness of the malformed-length report: whenever the scan loop
stops with SR_ERR_MALFORMED_MSG, the 4 bytes it examined at the stop
position decode to a length that is 0 or exceeds SR_MAX_MSG_SIZE. -/
theorem cm_in_buff_loop_malformed_sound (maxMsgSize : Nat)
    (proc : List Nat → Bool) (buff : List Nat) (buffSize : Nat) :
    ∀ fuel pos acc disp p,
    cm_in_buff_loop maxMsgSize proc buff buffSize fuel pos acc =
      some (disp, p, .malformedMsg) →
    sr_buff_to_uint32 buff p = 0 ∨ sr_buff_to_uint32 buff p > maxMsgSize := by
  intro fuel
  induction fuel with
  | zero =>
      intro pos acc disp p h
      simp [cm_in_buff_loop] at h
  | succ n ih =>
      intro pos acc disp p h
      unfold cm_in_buff_loop at h
      by_cases h1 : size_t_sub buffSize pos > SR_MSG_PREAM_SIZE
      · rw [if_pos h1] at h
        by_cases h2 : sr_buff_to_uint32 buff pos = 0 ∨
            sr_buff_to_uint32 buff pos > maxMsgSize
        · rw [if_pos h2] at h
          simp at h
          rw [← h.2]
          exact h2
        · rw [if_neg h2] at h
          by_cases h3 : size_t_sub buffSize pos ≥ sr_buff_to_uint32 buff pos
          · rw [if_pos h3] at h
            by_cases h4 : proc ((buff.drop (pos + SR_MSG_PREAM_SIZE)).take
                (sr_buff_to_uint32 buff pos)) = true
            · rw [if_pos h4] at h
              exact ih _ _ _ _ h
            · rw [if_neg h4] at h
              simp at h
          · rw [if_neg h3] at h
            simp at h
      · rw [if_neg h1] at h
        simp at h

theorem sr_buff_to_uint32_cons (a b c d : Nat) (tl : List Nat) :
    sr_buff_to_uint32 (a :: b :: c :: d :: tl) 0 =
      ((a * 256 + b) * 256 + c) * 256 + d := rfl

theorem drop4_cons (a b c d : Nat) (tl : List Nat) :
    List.drop 4 (a :: b :: c :: d :: tl) = tl := rfl

/-- C5: processing the input buffer reports SR_ERR_MALFORMED_MSG when the
4-byte big-endian length it examines holds L = 0 or L > SR_MAX_MSG_SIZE —
a buffer opening with such a preamble is rejected with the buffer left
uncompacted and the connection is then closed by cm_conn_read_cb, and
conversely every SR_ERR_MALFORMED_MSG outcome of the scan loop stems from
an examined length that is 0 or above the limit — while a complete frame
whose length equals SR_MAX_MSG_SIZE exactly is dispatched for processing
with result SR_ERR_OK and the connection stays open. -/
theorem C5_malformed_and_boundary (maxMsgSize : Nat) (proc : List Nat → Bool)
    (b0 b1 b2 b3 : Nat) (rest : List Nat) (payload : List Nat) (fuel : Nat)
    (hrest : rest ≠ []) (hsz : 4 + rest.length < SIZE_T_MOD)
    (hbad : sr_buff_to_uint32 (b0 :: b1 :: b2 :: b3 :: rest) 0 = 0 ∨
            sr_buff_to_uint32 (b0 :: b1 :: b2 :: b3 :: rest) 0 > maxMsgSize)
    (hmax : 0 < maxMsgSize) (hm32 : maxMsgSize < 2 ^ 32)
    (hlen : payload.length = maxMsgSize) (hproc : proc payload = true)
    (hfuel : 2 ≤ fuel) :
    (cm_conn_in_buff_process maxMsgSize proc (b0 :: b1 :: b2 :: b3 :: rest)
        fuel = some ([], b0 :: b1 :: b2 :: b3 :: rest, .malformedMsg) ∧
      cm_conn_read_cb_closes .malformedMsg = true) ∧
    (∀ buff2 size2 f2 pos acc disp p,
      cm_in_buff_loop maxMsgSize proc buff2 size2 f2 pos acc =
        some (disp, p, .malformedMsg) →
      sr_buff_to_uint32 buff2 p = 0 ∨ sr_buff_to_uint32 buff2 p > maxMsgSize) ∧
    (cm_conn_in_buff_process maxMsgSize proc
        (sr_uint32_to_buff maxMsgSize ++ payload) fuel =
        some ([payload], [], .ok) ∧
      cm_conn_read_cb_closes .ok = false) := by
  have hrl : 0 < rest.length := List.length_pos.mpr hrest
  refine ⟨⟨?_, by decide⟩, ?_, ⟨?_, by decide⟩⟩
  · -- part (a): invalid leading preamble is rejected, buffer untouched
    obtain ⟨f, rfl⟩ : ∃ k, fuel = k + 1 := ⟨fuel - 1, by omega⟩
    have hlen5 : (b0 :: b1 :: b2 :: b3 :: rest).length = 4 + rest.length := by
      simp
      omega
    have hs0 : size_t_sub (b0 :: b1 :: b2 :: b3 :: rest).length 0 =
        4 + rest.length := by
      rw [hlen5, size_t_sub_of_le (Nat.zero_le _) (by omega)]
      omega
    have hloop : cm_in_buff_loop maxMsgSize proc (b0 :: b1 :: b2 :: b3 :: rest)
        (b0 :: b1 :: b2 :: b3 :: rest).length (f + 1) 0 [] =
        some ([], 0, .malformedMsg) := by
      simp only [cm_in_buff_loop]
      rw [if_pos (by rw [hs0]; simp only [SR_MSG_PREAM_SIZE]; omega),
        if_pos hbad]
      simp
    unfold cm_conn_in_buff_process
    rw [if_neg (by rw [hlen5]; simp only [SR_MSG_PREAM_SIZE]; omega), hloop]
    simp
  · -- part (b): every malformed report stems from an examined bad length
    intro buff2 size2 f2 pos acc disp p h
    exact cm_in_buff_loop_malformed_sound maxMsgSize proc buff2 size2 f2
      pos acc disp p h
  · -- part (c): a complete frame of exactly the maximal length is accepted
    obtain ⟨g, rfl⟩ : ∃ k, fuel = k + 1 + 1 := ⟨fuel - 2, by omega⟩
    have hdec : sr_buff_to_uint32 (sr_uint32_to_buff maxMsgSize ++ payload) 0 =
        maxMsgSize := by
      simp only [sr_uint32_to_buff, List.cons_append, List.nil_append,
        sr_buff_to_uint32_cons]
      omega
    have hdrop : (sr_uint32_to_buff maxMsgSize ++ payload).drop
        (0 + SR_MSG_PREAM_SIZE) = payload := by
      simp only [sr_uint32_to_buff, List.cons_append, List.nil_append,
        SR_MSG_PREAM_SIZE, Nat.zero_add, drop4_cons]
    have htake : payload.take maxMsgSize = payload := by
      rw [← hlen]
      exact List.take_length payload
    have hlenb : (sr_uint32_to_buff maxMsgSize ++ payload).length =
        4 + maxMsgSize := by
      simp [sr_uint32_to_buff, hlen]
      omega
    have hMOD : 4 + maxMsgSize < SIZE_T_MOD := by
      unfold SIZE_T_MOD
      omega
    have hs0 : size_t_sub (4 + maxMsgSize) 0 = 4 + maxMsgSize := by
      rw [size_t_sub_of_le (Nat.zero_le _) (by omega)]
      omega
    have hposE : 0 + SR_MSG_PREAM_SIZE + maxMsgSize = 4 + maxMsgSize := by
      simp only [SR_MSG_PREAM_SIZE]
    have hsE : size_t_sub (4 + maxMsgSize) (0 + SR_MSG_PREAM_SIZE + maxMsgSize)
        = 0 := by
      rw [hposE, size_t_sub_of_le (Nat.le_refl _) (by omega)]
      omega
    have hloop : cm_in_buff_loop maxMsgSize proc
        (sr_uint32_to_buff maxMsgSize ++ payload) (4 + maxMsgSize)
        (g + 1 + 1) 0 [] =
        some ([payload], 0 + SR_MSG_PREAM_SIZE + maxMsgSize, .ok) := by
      simp only [cm_in_buff_loop]
      rw [if_pos (by rw [hs0]; simp only [SR_MSG_PREAM_SIZE]; omega),
        if_neg (by rw [hdec]; omega)]
      rw [if_pos (by rw [hdec, hs0]; omega)]
      rw [hdec, hdrop, htake, if_pos hproc]
      rw [if_neg (by rw [hsE]; simp only [SR_MSG_PREAM_SIZE]; omega)]
      simp
    unfold cm_conn_in_buff_process
    rw [hlenb]
    rw [if_neg (by simp only [SR_MSG_PREAM_SIZE]; omega), hloop]
    have hne : ¬ (0 + SR_MSG_PREAM_SIZE + maxMsgSize ≠ 0 ∧
        size_t_sub (4 + maxMsgSize) (0 + SR_MSG_PREAM_SIZE + maxMsgSize) > 0) := by
      rw [hsE]
      simp
    simp only [hne, if_neg, if_false]
    simp [hne]

/-- Witness for C5 with SR_MAX_MSG_SIZE = 8: a preamble announcing 9 is
rejected with the connection closed, and a complete frame of exactly
8 payload bytes is accepted. -/
theorem C5_malformed_and_boundary_witness :
    (cm_conn_in_buff_process 8 (fun _ => true) [0, 0, 0, 9, 1] 2 =
        some ([], [0, 0, 0, 9, 1], .malformedMsg) ∧
      cm_conn_read_cb_closes .malformedMsg = true) ∧
    (∀ buff2 size2 f2 pos acc disp p,
      cm_in_buff_loop 8 (fun _ => true) buff2 size2 f2 pos acc =
        some (disp, p, .malformedMsg) →
      sr_buff_to_uint32 buff2 p = 0 ∨ sr_buff_to_uint32 buff2 p > 8) ∧
    (cm_conn_in_buff_process 8 (fun _ => true)
        (sr_uint32_to_buff 8 ++ [1, 2, 3, 4, 5, 6, 7, 8]) 2 =
        some ([[1, 2, 3, 4, 5, 6, 7, 8]], [], .ok) ∧
      cm_conn_read_cb_closes .ok = false) :=
  C5_malformed_and_boundary 8 (fun _ => true) 0 0 0 9 [1]
    [1, 2, 3, 4, 5, 6, 7, 8] 2 (by decide) (by norm_num [SIZE_T_MOD])
    (by decide) (by decide) (by norm_num) (by decide) (by decide) (by decide)

/-- Counterexample to C4 as stated: for a module whose persist file does
not exist, the read-only getters do not succeed with an empty list —
pm_load_data_tree maps the ENOENT of the read-only open to
SR_ERR_DATA_MISSING (src/persistence_manager.c:120-123) and both getters
propagate that error. -/
theorem C4_counterexample :
    ¬ (pm_get_features PmFile.missing = .ok [] ∧
       pm_get_subscriptions PmFile.missing NotifEvent.moduleChange =
         .ok []) := by
  simp [pm_get_features, pm_get_subscriptions, pm_load_data_tree_ro]

/-- C4 amended: for a module whose persist file does not exist,
pm_get_features and pm_get_subscriptions fail with SR_ERR_DATA_MISSING;
the empty-list success applies when the persist file exists but parses
to an empty tree. -/
theorem C4_missing_persist_file (ev : NotifEvent) :
    pm_get_features .missing = .error .dataMissing ∧
    pm_get_subscriptions .missing ev = .error .dataMissing ∧
    pm_get_features .empty = .ok [] ∧
    pm_get_subscriptions .empty ev = .ok [] := by
  exact ⟨rfl, rfl, rfl, rfl⟩

theorem pm_remove_clean {f f2 : PmFile} {dst : String}
    (h : pm_remove_subscriptions_for_destination f dst = (.ok, f2)) :
    pmFileCleanOf f2 dst := by
  cases f <;>
    simp [pm_remove_subscriptions_for_destination, pm_load_data_tree_rw] at h
  subst h
  intro s hs
  have := (List.mem_filter.mp hs).2
  simpa using this

theorem list_find?_cons_eq {α : Type} (p : α → Bool) (e : α) (t : List α) :
    List.find? p (e :: t) =
      if p e = true then some e else List.find? p t := by
  by_cases h : p e = true
  · rw [List.find?_cons_of_pos _ h, if_pos h]
  · rw [List.find?_cons_of_neg _ h, if_neg h]

theorem find?_filter_ne (st : PmStore) {m x : String} (hx : x ≠ m) :
    List.find? (fun e => decide (e.1 = x))
        (List.filter (fun e => decide (e.1 ≠ m)) st) =
      List.find? (fun e => decide (e.1 = x)) st := by
  induction st with
  | nil => rfl
  | cons e t ih =>
      rw [List.filter_cons,
        list_find?_cons_eq (fun e => decide (e.1 = x)) e t]
      by_cases he : e.1 = m
      · have c1 : ¬ (decide (e.1 ≠ m) = true) := by simp [he]
        have c2 : ¬ (decide (e.1 = x) = true) := by
          simp only [decide_eq_true_eq]
          intro hc
          rw [he] at hc
          exact hx hc.symm
        rw [if_neg c1, if_neg c2, ih]
      · have c1 : decide (e.1 ≠ m) = true := by simp [he]
        rw [if_pos c1,
          list_find?_cons_eq (fun e => decide (e.1 = x)) e
            (List.filter (fun e => decide (e.1 ≠ m)) t)]
        by_cases hp : e.1 = x
        · have c2 : decide (e.1 = x) = true := by simp [hp]
          rw [if_pos c2, if_pos c2]
        · have c2 : ¬ (decide (e.1 = x) = true) := by simp [hp]
          rw [if_neg c2, if_neg c2, ih]

theorem pmStoreGet_set (st : PmStore) (m x : String) (f : PmFile) :
    pmStoreGet (pmStoreSet st m f) x =
      if x = m then f else pmStoreGet st x := by
  unfold pmStoreGet pmStoreSet
  rw [list_find?_cons_eq (fun e => decide (e.1 = x)) (m, f)
    (List.filter (fun e => decide (e.1 ≠ m)) st)]
  by_cases hx : x = m
  · subst hx
    rw [if_pos (by simp)]
    simp
  · have c2 : ¬ (decide ((m, f).1 = x) = true) := by
      simp only [decide_eq_true_eq]
      intro hc
      exact hx hc.symm
    rw [if_neg c2, find?_filter_ne st hx, if_neg hx]

theorem npIndexFind_remove (idx : NpDstIndex) (dst : String) :
    npIndexFind (npIndexRemove idx dst) dst = none := by
  unfold npIndexFind npIndexRemove
  induction idx with
  | nil => rfl
  | cons i t ih =>
      rw [List.filter_cons]
      by_cases hi : i.dst_address = dst
      · have c1 : ¬ (decide (i.dst_address ≠ dst) = true) := by simp [hi]
        rw [if_neg c1]
        exact ih
      · have c1 : decide (i.dst_address ≠ dst) = true := by simp [hi]
        have c2 : ¬ (decide (i.dst_address = dst) = true) := by simp [hi]
        rw [if_pos c1,
          list_find?_cons_eq (fun i => decide (i.dst_address = dst)) i
            (List.filter (fun i => decide (i.dst_address ≠ dst)) t),
          if_neg c2]
        exact ih

theorem np_purge_modules_spec (dst : String) (ms : List String) :
    ∀ st st2, np_purge_modules dst st ms = (.ok, st2) →
    ∀ x, (x ∈ ms → pmFileCleanOf (pmStoreGet st2 x) dst) ∧
         (x ∉ ms → pmStoreGet st2 x = pmStoreGet st x) := by
  induction ms with
  | nil =>
      intro st st2 h x
      simp [np_purge_modules] at h
      subst h
      exact ⟨fun hx => absurd hx (List.not_mem_nil x), fun _ => rfl⟩
  | cons m rest ih =>
      intro st st2 h x
      simp only [np_purge_modules] at h
      by_cases hr : (pm_remove_subs_for_dst_store st m dst).1 = .ok
      · rw [if_pos hr] at h
        have hr2 : (pm_remove_subscriptions_for_destination
            (pmStoreGet st m) dst).1 = .ok := hr
        have hclean : pmFileCleanOf
            (pm_remove_subscriptions_for_destination (pmStoreGet st m) dst).2
            dst := by
          refine @pm_remove_clean (pmStoreGet st m) _ dst ?_
          rw [← hr2]
        have hst1 : (pm_remove_subs_for_dst_store st m dst).2 =
            pmStoreSet st m
              (pm_remove_subscriptions_for_destination (pmStoreGet st m)
                dst).2 := rfl
        rw [hst1] at h
        have spec2 := ih _ _ h
        constructor
        · intro hx
          by_cases hxr : x ∈ rest
          · exact (spec2 x).1 hxr
          · have hxm : x = m := by
              rcases List.mem_cons.mp hx with h1 | h1
              · exact h1
              · exact absurd h1 hxr
            rw [(spec2 x).2 hxr, pmStoreGet_set, if_pos hxm]
            exact hclean
        · intro hx
          have hxm : x ≠ m := fun hh => hx (hh ▸ List.mem_cons_self m rest)
          have hxr : x ∉ rest := fun hh => hx (List.mem_cons_of_mem m hh)
          rw [(spec2 x).2 hxr, pmStoreGet_set, if_neg hxm]
      · rw [if_neg hr] at h
        exact absurd (by rw [h]) hr

theorem pm_get_subscriptions_clean {f : PmFile} {dst : String}
    (hc : pmFileCleanOf f dst) (ev : NotifEvent)
    (subs : List PmSubscription)
    (h : pm_get_subscriptions f ev = .ok subs) :
    ∀ s ∈ subs, s.dst_address ≠ dst := by
  cases f <;> simp [pm_get_subscriptions, pm_load_data_tree_ro] at h
  · subst h
    intro s hs
    cases hs
  · subst h
    intro s hs
    exact hc s (List.mem_filter.mp hs).1

/-- C7: when np_unsubscribe_destination returns SR_ERR_OK for a
destination address, every module recorded for that address in the
destination-info index ends up with a persist file holding no
subscription for the address — hence a subsequent pm_get_subscriptions on
that module returns no entry with the address for any event kind — and
the destination entry itself is removed from the index.  The theorem is
stated against the binding of the undefined callee
pm_delete_subscriptions_for_destination
(src/notification_processor.c:405) to the only purge routine defined in
the repository, pm_remove_subscriptions_for_destination
(src/persistence_manager.c:453-472). -/
theorem C7_unsubscribe_destination (np : NpDstIndex) (st : PmStore)
    (dst : String) (np2 : NpDstIndex) (st2 : PmStore)
    (h : np_unsubscribe_destination np st dst = (.ok, np2, st2)) :
    (∀ info, npIndexFind np dst = some info →
      ∀ m ∈ info.subscribed_modules,
        pmFileCleanOf (pmStoreGet st2 m) dst ∧
        (∀ ev subs, pm_get_subscriptions (pmStoreGet st2 m) ev = .ok subs →
          ∀ s ∈ subs, s.dst_address ≠ dst)) ∧
    npIndexFind np2 dst = none := by
  unfold np_unsubscribe_destination at h
  split at h
  · rename_i hfind
    simp only [Prod.mk.injEq] at h
    obtain ⟨-, hnp, hst⟩ := h
    subst hnp
    subst hst
    refine ⟨?_, hfind⟩
    intro info hinfo
    rw [hfind] at hinfo
    exact Option.noConfusion hinfo
  · rename_i info0 hfind
    split at h
    · rename_i hp
      simp only [Prod.mk.injEq] at h
      obtain ⟨-, hnp, hst⟩ := h
      subst hnp
      subst hst
      have hpurge : np_purge_modules dst st info0.subscribed_modules =
          (.ok, (np_purge_modules dst st info0.subscribed_modules).2) := by
        rw [← hp]
      have spec := np_purge_modules_spec dst info0.subscribed_modules
        st (np_purge_modules dst st info0.subscribed_modules).2 hpurge
      refine ⟨?_, npIndexFind_remove np dst⟩
      intro info hinfo m hm
      rw [hfind] at hinfo
      cases hinfo
      have hclean := (spec m).1 hm
      exact ⟨hclean, fun ev subs hsubs =>
        pm_get_subscriptions_clean hclean ev subs hsubs⟩
    · rename_i hp
      simp only [Prod.mk.injEq] at h
      exact absurd h.1 hp

/-- Witness for C7 at a concrete index and store: destination d is
subscribed to module foo alongside a subscription of destination e; after
the cleanup foo retains only the subscription of e and the index entry
for d is gone. -/
theorem C7_unsubscribe_destination_witness :
    (∀ info, npIndexFind [⟨"d", ["foo"]⟩] "d" = some info →
      ∀ m ∈ info.subscribed_modules,
        pmFileCleanOf
          (pmStoreGet
            [("foo", PmFile.tree
              { features := [],
                subscriptions := [⟨.moduleChange, "e", 2⟩] })] m) "d" ∧
        (∀ ev subs,
          pm_get_subscriptions
            (pmStoreGet
              [("foo", PmFile.tree
                { features := [],
                  subscriptions := [⟨.moduleChange, "e", 2⟩] })] m) ev =
            .ok subs →
          ∀ s ∈ subs, s.dst_address ≠ "d")) ∧
    npIndexFind ([] : NpDstIndex) "d" = none :=
  C7_unsubscribe_destination [⟨"d", ["foo"]⟩]
    [("foo", PmFile.tree
      { features := [],
        subscriptions := [⟨.moduleChange, "d", 1⟩, ⟨.moduleChange, "e", 2⟩] })]
    "d" []
    [("foo", PmFile.tree
      { features := [], subscriptions := [⟨.moduleChange, "e", 2⟩] })]
    (by rfl)

theorem dm_enabled_iff (σ : NodeStates) (n : Nat) :
    dm_is_node_enabled σ n = true ↔ σ n ≠ .disabled := by
  unfold dm_is_node_enabled
  cases σ n <;> simp

theorem dm_not_enabled_iff (σ : NodeStates) (n : Nat) :
    dm_is_node_enabled σ n = false ↔ σ n = .disabled := by
  unfold dm_is_node_enabled
  cases σ n <;> simp

theorem key_fold_change (ks : List Nat) :
    ∀ (σ : NodeStates) (x : Nat),
      (List.foldl (fun τ k => if dm_is_node_enabled τ k then τ
          else dm_set_node_state τ k .enabled) σ ks) x = σ x ∨
      ((List.foldl (fun τ k => if dm_is_node_enabled τ k then τ
          else dm_set_node_state τ k .enabled) σ ks) x = .enabled ∧
        σ x = .disabled) := by
  induction ks with
  | nil => intro σ x; exact Or.inl rfl
  | cons k ks ih =>
      intro σ x
      simp only [List.foldl_cons]
      by_cases hk : dm_is_node_enabled σ k = true
      · rw [if_pos hk]
        exact ih σ x
      · rw [if_neg hk]
        have hkd : σ k = .disabled :=
          (dm_not_enabled_iff σ k).mp (Bool.eq_false_iff.mpr hk)
        rcases ih (dm_set_node_state σ k .enabled) x with h | ⟨h1, h2⟩
        · rw [h]
          unfold dm_set_node_state
          by_cases hx : x = k
          · subst hx
            rw [if_pos rfl]
            exact Or.inr ⟨rfl, hkd⟩
          · rw [if_neg hx]
            exact Or.inl rfl
        · unfold dm_set_node_state at h2
          by_cases hx : x = k
          · rw [if_pos hx] at h2
            cases h2
          · rw [if_neg hx] at h2
            exact Or.inr ⟨h1, h2⟩

theorem key_fold_untouched (ks : List Nat) :
    ∀ (σ : NodeStates) (x : Nat), x ∉ ks →
      (List.foldl (fun τ k => if dm_is_node_enabled τ k then τ
          else dm_set_node_state τ k .enabled) σ ks) x = σ x := by
  induction ks with
  | nil => intro σ x _; rfl
  | cons k ks ih =>
      intro σ x hx
      have hxk : x ≠ k := fun hh => hx (hh ▸ List.mem_cons_self k ks)
      have hxs : x ∉ ks := fun hh => hx (List.mem_cons_of_mem k hh)
      simp only [List.foldl_cons]
      by_cases hk : dm_is_node_enabled σ k = true
      · rw [if_pos hk]
        exact ih σ x hxs
      · rw [if_neg hk]
        rw [ih _ x hxs]
        unfold dm_set_node_state
        rw [if_neg hxk]

theorem key_fold_keys_enabled (ks : List Nat) :
    ∀ (σ : NodeStates) (k : Nat), k ∈ ks →
      (List.foldl (fun τ q => if dm_is_node_enabled τ q then τ
          else dm_set_node_state τ q .enabled) σ ks) k ≠ .disabled := by
  induction ks with
  | nil => intro σ k hk; cases hk
  | cons k0 ks ih =>
      intro σ k hk
      simp only [List.foldl_cons]
      by_cases hk0 : dm_is_node_enabled σ k0 = true
      · rw [if_pos hk0]
        rcases List.mem_cons.mp hk with h1 | h1
        · subst h1
          rcases key_fold_change ks σ k with h | ⟨h, -⟩
          · rw [h]
            exact (dm_enabled_iff σ k).mp hk0
          · rw [h]
            intro hc
            cases hc
        · exact ih σ k h1
      · rw [if_neg hk0]
        rcases List.mem_cons.mp hk with h1 | h1
        · subst h1
          rcases key_fold_change ks (dm_set_node_state σ k .enabled) k with
            h | ⟨h, -⟩
          · rw [h]
            unfold dm_set_node_state
            rw [if_pos rfl]
            intro hc
            cases hc
          · rw [h]
            intro hc
            cases hc
        · exact ih _ k h1

theorem key_nodes_change (nd : LysNode) (σ : NodeStates) (x : Nat) :
    rp_dt_enable_key_nodes nd σ x = σ x ∨
    (rp_dt_enable_key_nodes nd σ x = .enabled ∧ σ x = .disabled) := by
  unfold rp_dt_enable_key_nodes
  by_cases h : nd.nodetype = .list
  · rw [if_pos h]
    exact key_fold_change nd.keys σ x
  · rw [if_neg h]
    exact Or.inl rfl

theorem change_trans {a b c : DmNodeState}
    (h1 : b = a ∨ (b = .enabled ∧ a = .disabled))
    (h2 : c = b ∨ (c = .enabled ∧ b = .disabled)) :
    c = a ∨ (c = .enabled ∧ a = .disabled) := by
  rcases h1 with h1 | ⟨h1, h1a⟩ <;> rcases h2 with h2 | ⟨h2, h2b⟩
  · exact Or.inl (h2.trans h1)
  · exact Or.inr ⟨h2, h1.symm.trans h2b⟩
  · exact Or.inr ⟨h2.trans h1, h1a⟩
  · exact Or.inr ⟨h2, h1a⟩

theorem enable_ancestors_spec (sch : LysSchema) :
    ∀ (fuel : Nat) (start : Option Nat) (σ σ2 : NodeStates),
      rp_dt_enable_ancestors sch σ start fuel = some σ2 →
      ∀ x, σ2 x = σ x ∨ (σ2 x = .enabled ∧ σ x = .disabled) := by
  intro fuel
  induction fuel with
  | zero =>
      intro start σ σ2 h x
      cases start with
      | none =>
          simp [rp_dt_enable_ancestors] at h
          subst h
          exact Or.inl rfl
      | some n => simp [rp_dt_enable_ancestors] at h
  | succ f ih =>
      intro start σ σ2 h x
      cases start with
      | none =>
          simp [rp_dt_enable_ancestors] at h
          subst h
          exact Or.inl rfl
      | some n =>
          unfold rp_dt_enable_ancestors at h
          split at h
          · cases h
          · rename_i nd hnd
            split at h
            · exact ih _ σ σ2 h x
            · split at h
              · exact ih _ σ σ2 h x
              · rename_i hen
                have hkd : σ n = .disabled :=
                  (dm_not_enabled_iff σ n).mp (Bool.eq_false_iff.mpr hen)
                have hstep :
                    (rp_dt_enable_key_nodes nd
                      (dm_set_node_state σ n .enabled)) x = σ x ∨
                    ((rp_dt_enable_key_nodes nd
                      (dm_set_node_state σ n .enabled)) x = .enabled ∧
                      σ x = .disabled) := by
                  have hset : (dm_set_node_state σ n .enabled) x = σ x ∨
                      ((dm_set_node_state σ n .enabled) x = .enabled ∧
                        σ x = .disabled) := by
                    unfold dm_set_node_state
                    by_cases hx : x = n
                    · subst hx
                      rw [if_pos rfl]
                      exact Or.inr ⟨rfl, hkd⟩
                    · rw [if_neg hx]
                      exact Or.inl rfl
                  exact change_trans hset
                    (key_nodes_change nd (dm_set_node_state σ n .enabled) x)
                exact change_trans hstep (ih _ _ σ2 h x)

theorem key_nodes_untouched (nd : LysNode) (τ : NodeStates) (x : Nat)
    (hx : x ∉ nd.keys) : rp_dt_enable_key_nodes nd τ x = τ x := by
  unfold rp_dt_enable_key_nodes
  by_cases h : nd.nodetype = .list
  · rw [if_pos h]
    exact key_fold_untouched nd.keys τ x hx
  · rw [if_neg h]

theorem enable_ancestors_chain_spec (sch : LysSchema) :
    ∀ (fuel : Nat) (start : Option Nat) (σ σ2 : NodeStates) (ch : List Nat),
      rp_dt_enable_ancestors sch σ start fuel = some σ2 →
      rp_dt_ancestor_chain sch start fuel = some ch →
      (∀ a ∈ ch, σ2 a ≠ .disabled) ∧
      (ch.Nodup →
        (∀ a ∈ ch, ∀ nda, sch[a]? = some nda → ∀ k ∈ nda.keys, k ∉ ch) →
        ∀ a ∈ ch, σ a = .disabled → ∀ nda, sch[a]? = some nda →
          σ2 a = .enabled ∧
          (nda.nodetype = .list → ∀ k ∈ nda.keys, σ2 k ≠ .disabled)) := by
  intro fuel
  induction fuel with
  | zero =>
      intro start σ σ2 ch h hc
      cases start with
      | none =>
          simp [rp_dt_enable_ancestors] at h
          simp [rp_dt_ancestor_chain] at hc
          subst h
          subst hc
          refine ⟨fun a ha => absurd ha (List.not_mem_nil a), ?_⟩
          intro _ _ a ha
          exact absurd ha (List.not_mem_nil a)
      | some n => simp [rp_dt_enable_ancestors] at h
  | succ f ih =>
      intro start σ σ2 ch h hc
      cases start with
      | none =>
          simp [rp_dt_enable_ancestors] at h
          simp [rp_dt_ancestor_chain] at hc
          subst h
          subst hc
          refine ⟨fun a ha => absurd ha (List.not_mem_nil a), ?_⟩
          intro _ _ a ha
          exact absurd ha (List.not_mem_nil a)
      | some n =>
          unfold rp_dt_enable_ancestors at h
          unfold rp_dt_ancestor_chain at hc
          split at hc
          · cases hc
          · rename_i ndc hndc
            split at hc
            · rename_i haugc
              split at h
              · cases h
              · rename_i nd hnd
                have hnde : ndc = nd := by
                  rw [hnd] at hndc
                  exact (Option.some.inj hndc).symm
                subst hnde
                split at h
                · exact ih _ σ σ2 ch h hc
                · rename_i haug
                  exact absurd haugc haug
            · rename_i haugc
              split at hc
              · cases hc
              · rename_i rest hrest
                have hch : ch = n :: rest := (Option.some.inj hc).symm
                subst hch
                split at h
                · cases h
                · rename_i nd hnd
                  have hnde : ndc = nd := by
                    rw [hnd] at hndc
                    exact (Option.some.inj hndc).symm
                  subst hnde
                  split at h
                  · rename_i haug
                    exact absurd haug haugc
                  · split at h
                    · rename_i hen
                      have hspec := enable_ancestors_spec sch f ndc.parent
                        σ σ2 h
                      have hihp := ih ndc.parent σ σ2 rest h hrest
                      constructor
                      · intro a ha
                        rcases List.mem_cons.mp ha with h1 | h1
                        · subst h1
                          have hne : σ a ≠ .disabled :=
                            (dm_enabled_iff σ a).mp hen
                          rcases hspec a with hs | ⟨hs, -⟩
                          · rw [hs]
                            exact hne
                          · rw [hs]
                            intro hcn
                            cases hcn
                        · exact hihp.1 a h1
                      · intro hnodup hkeys a ha hdis nda hnda
                        rcases List.mem_cons.mp ha with h1 | h1
                        · subst h1
                          exact absurd hdis
                            (by
                              have := (dm_enabled_iff σ a).mp hen
                              exact this)
                        · exact hihp.2 (List.Nodup.of_cons hnodup)
                            (fun b hb ndb hndb k hk hkr =>
                              hkeys b (List.mem_cons_of_mem n hb)
                                ndb hndb k hk (List.mem_cons_of_mem n hkr))
                            a h1 hdis nda hnda
                    · rename_i hen
                      have hkd : σ n = .disabled :=
                        (dm_not_enabled_iff σ n).mp
                          (Bool.eq_false_iff.mpr hen)
                      have h3n : rp_dt_enable_key_nodes ndc
                          (dm_set_node_state σ n .enabled) n = .enabled := by
                        rcases key_nodes_change ndc
                            (dm_set_node_state σ n .enabled) n with
                          hq | ⟨hq, -⟩
                        · rw [hq]
                          unfold dm_set_node_state
                          rw [if_pos rfl]
                        · exact hq
                      have hspec := enable_ancestors_spec sch f ndc.parent
                        _ σ2 h
                      have hihp := ih ndc.parent _ σ2 rest h hrest
                      constructor
                      · intro a ha
                        rcases List.mem_cons.mp ha with h1 | h1
                        · subst h1
                          rcases hspec a with hs | ⟨hs, -⟩
                          · rw [hs, h3n]
                            intro hcn
                            cases hcn
                          · rw [hs]
                            intro hcn
                            cases hcn
                        · exact hihp.1 a h1
                      · intro hnodup hkeys a ha hdis nda hnda
                        rcases List.mem_cons.mp ha with h1 | h1
                        · subst h1
                          rw [hnda] at hnd
                          have hnde2 := Option.some.inj hnd
                          subst hnde2
                          constructor
                          · rcases hspec a with hs | ⟨hs, h3⟩
                            · rw [hs, h3n]
                            · exact hs
                          · intro hl k hk
                            have h3k : rp_dt_enable_key_nodes nda
                                (dm_set_node_state σ a .enabled) k ≠
                                .disabled := by
                              unfold rp_dt_enable_key_nodes
                              rw [if_pos hl]
                              exact key_fold_keys_enabled nda.keys _ k hk
                            rcases hspec k with hs | ⟨hs, -⟩
                            · rw [hs]
                              exact h3k
                            · rw [hs]
                              intro hcn
                              cases hcn
                        · have han : a ≠ n := by
                            intro hh
                            subst hh
                            exact (List.nodup_cons.mp hnodup).1 h1
                          have hak : a ∉ ndc.keys := by
                            intro hh
                            exact hkeys n (List.mem_cons_self n rest) ndc hnd
                              a hh (List.mem_cons_of_mem n h1)
                          have hdis3 : (rp_dt_enable_key_nodes ndc
                              (dm_set_node_state σ n .enabled)) a =
                              .disabled := by
                            rw [key_nodes_untouched ndc _ a hak]
                            unfold dm_set_node_state
                            rw [if_neg han]
                            exact hdis
                          exact hihp.2 (List.Nodup.of_cons hnodup)
                            (fun b hb ndb hndb k hk hkr =>
                              hkeys b (List.mem_cons_of_mem n hb)
                                ndb hndb k hk (List.mem_cons_of_mem n hkr))
                            a h1 hdis3 nda hnda

theorem enable_xpath_core (sch : LysSchema) (σ σ2 : NodeStates)
    (tgt fuel : Nat) (nd : LysNode) (ch : List Nat) (st : DmNodeState)
    (hst : st ≠ .disabled)
    (hwalk : rp_dt_enable_ancestors sch (dm_set_node_state σ tgt st)
      nd.parent fuel = some σ2)
    (hch : rp_dt_ancestor_chain sch nd.parent fuel = some ch)
    (hnodup : ch.Nodup)
    (hkeys : ∀ a ∈ ch, ∀ nda, sch[a]? = some nda → ∀ k ∈ nda.keys, k ∉ ch)
    (htgt : tgt ∉ ch) :
    σ2 tgt = st ∧
    (∀ a ∈ ch, dm_is_node_enabled σ2 a = true) ∧
    (∀ x, x ≠ tgt → σ2 x ≠ σ x → σ2 x = .enabled ∧ σ x = .disabled) ∧
    (∀ a ∈ ch, σ a = .disabled → ∀ nda, sch[a]? = some nda →
      σ2 a = .enabled ∧
      (nda.nodetype = .list → ∀ k ∈ nda.keys,
        dm_is_node_enabled σ2 k = true)) := by
  have hspec := enable_ancestors_spec sch fuel nd.parent _ σ2 hwalk
  have hcs := enable_ancestors_chain_spec sch fuel nd.parent _ σ2 ch
    hwalk hch
  refine ⟨?_, ?_, ?_, ?_⟩
  · have h1 : (dm_set_node_state σ tgt st) tgt = st := by
      unfold dm_set_node_state
      rw [if_pos rfl]
    rcases hspec tgt with hs | ⟨-, h3⟩
    · rw [hs, h1]
    · rw [h1] at h3
      exact absurd h3 hst
  · intro a ha
    rw [dm_enabled_iff]
    exact hcs.1 a ha
  · intro x hx hne
    have h1 : (dm_set_node_state σ tgt st) x = σ x := by
      unfold dm_set_node_state
      rw [if_neg hx]
    rcases hspec x with hs | ⟨hs, h3⟩
    · rw [hs, h1] at hne
      exact absurd rfl hne
    · rw [h1] at h3
      exact ⟨hs, h3⟩
  · intro a ha hdis nda hnda
    have hat : a ≠ tgt := fun hh => htgt (hh ▸ ha)
    have hdis1 : (dm_set_node_state σ tgt st) a = .disabled := by
      unfold dm_set_node_state
      rw [if_neg hat]
      exact hdis
    have h4 := hcs.2 hnodup hkeys a ha hdis1 nda hnda
    exact ⟨h4.1, fun hl k hk => (dm_enabled_iff σ2 k).mpr (h4.2 hl k hk)⟩

theorem check_recursively_iff (sch : LysSchema) (τ : NodeStates)
    (m fuel : Nat) (ndm : LysNode) (chm : List Nat) (b : Bool)
    (hm : sch[m]? = some ndm)
    (hcm : rp_dt_ancestor_chain sch ndm.parent fuel = some chm)
    (hcheck : dm_is_enabled_check_recursively sch τ m fuel = some b) :
    b = true ↔ (dm_is_node_enabled τ m = true ∨
      ∃ a ∈ chm, τ a = .enabledWithChildren) := by
  unfold dm_is_enabled_check_recursively at hcheck
  split at hcheck
  · cases hcheck
  · rename_i ndm2 hm2
    have hnde : ndm2 = ndm := by
      rw [hm] at hm2
      exact (Option.some.inj hm2).symm
    subst hnde
    split at hcheck
    · cases hcheck
    · rename_i chm2 hcm2
      have hche : chm2 = chm := by
        rw [hcm] at hcm2
        exact (Option.some.inj hcm2).symm
      subst hche
      have hb := Option.some.inj hcheck
      rw [← hb]
      simp [List.any_eq_true]

/-- C6: rp_dt_enable_xpath sets the resolved target node to
DM_NODE_ENABLED_WITH_CHILDREN when it is a container or a list and to
DM_NODE_ENABLED otherwise; the upward walk leaves every ancestor on the
chain enabled, changes states only from DM_NODE_DISABLED to
DM_NODE_ENABLED away from the target (so already-enabled nodes keep
their state), and for every ancestor that was not yet enabled it sets it
to DM_NODE_ENABLED and enables the key leaves of such list ancestors;
and a node counts as enabled in the running datastore
(dm_is_enabled_check_recursively) iff it is enabled directly or some
node on its ancestor chain is in state DM_NODE_ENABLED_WITH_CHILDREN.
The well-formedness hypotheses (chain without duplicates, key leaves not
on the chain, target not its own ancestor) hold for every YANG schema,
where parent chains are acyclic and list keys are leaf children. -/
theorem C6_enable_xpath (sch : LysSchema) (σ : NodeStates) (tgt fuel : Nat)
    (nd : LysNode) (σ2 : NodeStates) (ch : List Nat)
    (hnd : sch[tgt]? = some nd)
    (hrun : rp_dt_enable_xpath sch σ tgt fuel = some σ2)
    (hch : rp_dt_ancestor_chain sch nd.parent fuel = some ch)
    (hnodup : ch.Nodup)
    (hkeys : ∀ a ∈ ch, ∀ nda, sch[a]? = some nda → ∀ k ∈ nda.keys, k ∉ ch)
    (htgt : tgt ∉ ch) :
    (σ2 tgt = if nd.nodetype = .container ∨ nd.nodetype = .list
      then .enabledWithChildren else .enabled) ∧
    (∀ a ∈ ch, dm_is_node_enabled σ2 a = true) ∧
    (∀ x, x ≠ tgt → σ2 x ≠ σ x → σ2 x = .enabled ∧ σ x = .disabled) ∧
    (∀ a ∈ ch, σ a = .disabled → ∀ nda, sch[a]? = some nda →
      σ2 a = .enabled ∧
      (nda.nodetype = .list → ∀ k ∈ nda.keys,
        dm_is_node_enabled σ2 k = true)) ∧
    (∀ m ndm chm b, sch[m]? = some ndm →
      rp_dt_ancestor_chain sch ndm.parent fuel = some chm →
      dm_is_enabled_check_recursively sch σ2 m fuel = some b →
      (b = true ↔ (dm_is_node_enabled σ2 m = true ∨
        ∃ a ∈ chm, σ2 a = .enabledWithChildren))) := by
  unfold rp_dt_enable_xpath at hrun
  split at hrun
  · cases hrun
  · rename_i nd2 hnd2
    have hnde : nd2 = nd := by
      rw [hnd] at hnd2
      exact (Option.some.inj hnd2).symm
    subst hnde
    by_cases hcl : nd2.nodetype = .container ∨ nd2.nodetype = .list
    · rw [if_pos hcl] at hrun
      have core := enable_xpath_core sch σ σ2 tgt fuel nd2 ch
        .enabledWithChildren (by intro hh; cases hh) hrun hch hnodup
        hkeys htgt
      refine ⟨?_, core.2.1, core.2.2.1, core.2.2.2, ?_⟩
      · rw [if_pos hcl]
        exact core.1
      · intro m ndm chm b hm hcm hcheck
        exact check_recursively_iff sch σ2 m fuel ndm chm b hm hcm hcheck
    · rw [if_neg hcl] at hrun
      have core := enable_xpath_core sch σ σ2 tgt fuel nd2 ch
        .enabled (by intro hh; cases hh) hrun hch hnodup hkeys htgt
      refine ⟨?_, core.2.1, core.2.2.1, core.2.2.2, ?_⟩
      · rw [if_neg hcl]
        exact core.1
      · intro m ndm chm b hm hcm hcheck
        exact check_recursively_iff sch σ2 m fuel ndm chm b hm hcm hcheck

/-- Witness for C6 on the concrete schema: enabling the leaf under the
keyed list enables the leaf, the list, its key and the container. -/
theorem C6_enable_xpath_witness :
    (c6After 3 = if c6TargetNode.nodetype = .container ∨
        c6TargetNode.nodetype = .list
      then .enabledWithChildren else .enabled) ∧
    (∀ a ∈ [1, 0], dm_is_node_enabled c6After a = true) ∧
    (∀ x, x ≠ 3 → c6After x ≠ c6AllDisabled x →
      c6After x = .enabled ∧ c6AllDisabled x = .disabled) ∧
    (∀ a ∈ [1, 0], c6AllDisabled a = .disabled → ∀ nda,
      c6Schema[a]? = some nda →
      c6After a = .enabled ∧
      (nda.nodetype = .list → ∀ k ∈ nda.keys,
        dm_is_node_enabled c6After k = true)) ∧
    (∀ m ndm chm b, c6Schema[m]? = some ndm →
      rp_dt_ancestor_chain c6Schema ndm.parent 5 = some chm →
      dm_is_enabled_check_recursively c6Schema c6After m 5 = some b →
      (b = true ↔ (dm_is_node_enabled c6After m = true ∨
        ∃ a ∈ chm, c6After a = .enabledWithChildren))) :=
  C6_enable_xpath c6Schema c6AllDisabled 3 5 c6TargetNode c6After [1, 0]
    rfl rfl rfl (by decide)
    (by
      intro a ha nda hnda k hk
      fin_cases ha
      · have he : c6Schema[1]? =
            some ⟨LysNodetype.list, some 0, [2], none⟩ := rfl
        rw [he] at hnda
        cases hnda
        fin_cases hk
        decide
      · have he : c6Schema[0]? =
            some ⟨LysNodetype.container, none, [], none⟩ := rfl
        rw [he] at hnda
        cases hnda
        fin_cases hk)
    (by decide)

theorem rb_step {α : Type} (items : List α) (j : Nat) (hj : j ≤ items.length) :
    sr_btree_get_at_rb ⟨items, rbStateAfter items j⟩ j =
      some (items[j]?, ⟨items, rbStateAfter items (j + 1)⟩) := by
  unfold sr_btree_get_at_rb
  by_cases h0 : j = 0
  · subst h0
    simp only [if_pos rfl]
    cases items with
    | nil => simp [rbStateAfter]
    | cons x rest => simp [rbStateAfter]
  · simp only [if_neg h0]
    rw [show rbStateAfter items j = RbIterState.opened (items.drop j) by
      unfold rbStateAfter; rw [if_neg h0, if_pos hj]]
    cases hd : items.drop j with
    | nil =>
        have hlen : items.length ≤ j := List.drop_eq_nil_iff.mp hd
        have hjl : j = items.length := Nat.le_antisymm hj hlen
        simp only []
        rw [List.getElem?_eq_none hlen]
        have hst : rbStateAfter items (j + 1) = RbIterState.stale := by
          unfold rbStateAfter
          rw [if_neg (Nat.succ_ne_zero j), if_neg (by omega)]
        rw [hst]
    | cons y ys =>
        have hlt : j < items.length := by
          rcases Nat.lt_or_ge j items.length with hh | hh
          · exact hh
          · rw [List.drop_eq_nil_of_le hh] at hd
            cases hd
        have hdc := List.drop_eq_getElem_cons hlt
        rw [hd] at hdc
        have hy : y = items[j] := (List.cons.inj hdc).1
        have hys : ys = items.drop (j + 1) := (List.cons.inj hdc).2
        simp only []
        rw [List.getElem?_eq_getElem hlt, hy]
        have hst : rbStateAfter items (j + 1) =
            RbIterState.opened (items.drop (j + 1)) := by
          unfold rbStateAfter
          rw [if_neg (Nat.succ_ne_zero j), if_pos (by omega)]
        rw [hst, hys]

theorem rbSeqAux_range' {α : Type} (items : List α) :
    ∀ (m j : Nat), j + m ≤ items.length + 1 →
      rbSeqAux ⟨items, rbStateAfter items j⟩ (List.range' j m) =
        some ((List.range' j m).map (fun i => items[i]?)) := by
  intro m
  induction m with
  | zero => intro j h; rfl
  | succ m ih =>
      intro j h
      rw [List.range'_succ j m 1]
      unfold rbSeqAux
      rw [rb_step items j (by omega)]
      simp only []
      rw [ih (j + 1) (by omega)]
      simp only [List.map_cons]

/-- Counterexample to C10 as stated: on a fresh 2-item tree a first call
of sr_btree_get_at with index 1 returns the second item under the AVL
backend but NULL under the red-black backend (whose rb_list pointer is
still the NULL of sr_btree_init, src/utils/sr_btree.c:173-183), so the
backends are not observationally equivalent for arbitrary indexed
access. -/
theorem C10_counterexample :
    (sr_btree_get_at_avl (⟨[10, 20]⟩ : AvlTree Nat) 1).1 = some 20 ∧
    sr_btree_get_at_rb (⟨[10, 20], RbIterState.null⟩ : RbTree Nat) 1 =
      some (none, ⟨[10, 20], RbIterState.null⟩) := by
  constructor
  · rfl
  · rfl

/-- C10 amended: the two backends agree under sequential iteration only
up to the first past-the-end call — with indices 0,1,…,k issued in
order on a freshly initialized tree and k at most the item count, every
red-black call is defined and both backends return for each index the
item at that position in comparator order, NULL at the first index past
the end (any later nonzero-index call would read the freed rb_list, a
use after free with no defined result) — while for arbitrary indexed
access they differ: a first call with a nonzero index yields the
indexed item under AVL but NULL under red-black, whose get_at ignores a
nonzero index and finds the NULL rb_list. -/
theorem C10_get_at_backends (α : Type) (items : List α) (k i : Nat)
    (hk : k ≤ items.length) (hi : i ≠ 0) :
    rbSeqOutputs items k = some (avlSeqOutputs items k) ∧
    avlSeqOutputs items k = (List.range (k + 1)).map (fun j => items[j]?) ∧
    sr_btree_get_at_rb ⟨items, RbIterState.null⟩ i =
      some (none, ⟨items, RbIterState.null⟩) ∧
    (sr_btree_get_at_avl ⟨items⟩ i).1 = items[i]? := by
  refine ⟨?_, rfl, ?_, rfl⟩
  · unfold rbSeqOutputs avlSeqOutputs
    rw [List.range_eq_range' (k + 1)]
    have h0 : rbStateAfter items 0 = (RbIterState.null : RbIterState α) := rfl
    rw [← h0, rbSeqAux_range' items (k + 1) 0 (by omega)]
    rfl
  · unfold sr_btree_get_at_rb
    simp only [if_neg hi]

/-- Witness for C10: sequential iteration with indices 0, 1, 2 over a
concrete 2-item tree (k equal to the item count), and a first call at
index 2. -/
theorem C10_get_at_backends_witness :
    rbSeqOutputs [10, 20] 2 = some (avlSeqOutputs [10, 20] 2) ∧
    avlSeqOutputs [10, 20] 2 =
      (List.range 3).map (fun j => ([10, 20] : List Nat)[j]?) ∧
    sr_btree_get_at_rb (⟨[10, 20], RbIterState.null⟩ : RbTree Nat) 2 =
      some (none, ⟨[10, 20], RbIterState.null⟩) ∧
    (sr_btree_get_at_avl (⟨[10, 20]⟩ : AvlTree Nat) 2).1 =
      ([10, 20] : List Nat)[2]? :=
  C10_get_at_backends Nat [10, 20] 2 2 (by decide) (by decide)

/-- C1: commit is atomic per module — whenever dm_commit fails in any
phase (session-local validation, load of the fresh trees, replay of the
operation log, merge validation, or data-file lock acquisition during
persisting), the persistent datastore after the call is identical to the
datastore before it, so every module data file keeps its exact
pre-commit content and no partial persistence is observable. -/
theorem C1_commit_atomic (env : CommitEnv) (st : DmDataStore)
    (sess : DmSession) (rc : SrErr) (st2 : DmDataStore)
    (sess2 : DmSession) (h : dm_commit env st sess = (rc, st2, sess2))
    (hfail : rc ≠ .ok) : st2 = st := by
  unfold dm_commit at h
  split at h
  · simp only [Prod.mk.injEq] at h
    exact absurd h.1.symm hfail
  · split at h
    · simp only [Prod.mk.injEq] at h
      exact h.2.1.symm
    · split at h
      · simp only [Prod.mk.injEq] at h
        exact h.2.1.symm
      · split at h
        · simp only [Prod.mk.injEq] at h
          exact h.2.1.symm
        · split at h
          · simp only [Prod.mk.injEq] at h
            exact h.2.1.symm
          · simp only [Prod.mk.injEq] at h
            exact absurd h.1.symm hfail

/-- Witness for C1: a commit whose session-local validation fails leaves
the one-module datastore untouched. -/
theorem C1_commit_atomic_witness :
    ([(1, { ts := 0, content := [5] })] : DmDataStore) =
      [(1, { ts := 0, content := [5] })] :=
  C1_commit_atomic c1Env [(1, { ts := 0, content := [5] })]
    { infos := [{ name := 1, modified := true, tree := 7, ts := 0 }],
      ops := [] }
    .validationFailed [(1, { ts := 0, content := [5] })]
    { infos := [{ name := 1, modified := true, tree := 7, ts := 0 }],
      ops := [] }
    (by rfl) (by decide)
